import Mathlib

/-!
Shallow embedding of the indexed post store (class TweetStore in
src/src/llm/gemini/geminiApi.ts) together with proofs of the spec claims
about it.

Modelling conventions:
* JavaScript numbers that hold integral counters and timestamps become Int.
* Optional fields (threadId, quoteId, replyCount, retweet) become Option.
  The JS truthiness test `if (post.threadId)` becomes a match on the Option,
  and `x || 0` becomes Option.getD 0.
* A JS Map is an association list with unique keys: Map.get finds the entry,
  Map.set replaces the value of an existing key in place and otherwise
  appends.  `new Map(pairs)` folds Map.set over the pairs, so a later pair
  with a duplicate key overwrites an earlier one.
* The store methods mutate post objects obtained from the postsById map.
  Because that map is built later-entry-wins from settings.posts, the object
  it returns for an id is the last array element carrying that id, so the
  in-place mutation is modelled by updateLast, which rewrites the last
  matching element of the list.
* Date.now() becomes an explicit `now : Int` argument of the methods that
  read the clock.
-/

/-- Model of TweetWidgetPost: the fields read or written by TweetStore,
plus `text` standing for the opaque content payload. -/
structure TweetWidgetPost where
  id : String
  threadId : Option String := none
  quoteId : Option String := none
  replyCount : Option Int := none
  retweet : Option Int := none
  updated : Int := 0
  text : String := ""
deriving DecidableEq, Repr

/-- Model of TweetWidgetSettings restricted to the field the store logic
touches, the ordered primary collection of posts. -/
structure TweetWidgetSettings where
  posts : List TweetWidgetPost
deriving DecidableEq, Repr

/-- Model of Partial\<Omit\<TweetWidgetPost, \x7bid\x7d...\>\>: every non-id
field may be present (and is then assigned wholesale, Object.assign style)
or absent. -/
structure PostUpdates where
  threadId : Option (Option String) := none
  quoteId : Option (Option String) := none
  replyCount : Option (Option Int) := none
  retweet : Option (Option Int) := none
  updated : Option Int := none
  text : Option String := none
deriving DecidableEq, Repr

/-- Object.assign(post, updates): fields present in `updates` overwrite the
corresponding fields of `post`; `id` is not assignable (Omit). -/
def applyUpdates (p : TweetWidgetPost) (u : PostUpdates) : TweetWidgetPost :=
  { id := p.id
    threadId := u.threadId.getD p.threadId
    quoteId := u.quoteId.getD p.quoteId
    replyCount := u.replyCount.getD p.replyCount
    retweet := u.retweet.getD p.retweet
    updated := u.updated.getD p.updated
    text := u.text.getD p.text }

/-- JS Map.get on an association list with unique keys. -/
def mapGet (m : List (String × α)) (k : String) : Option α :=
  (m.find? (fun e => e.1 == k)).map (fun e => e.2)

/-- JS Map.set: replace the value of an existing key in place, otherwise
append a new entry. -/
def mapSet (m : List (String × α)) (k : String) (v : α) : List (String × α) :=
  match m with
  | [] => [(k, v)]
  | e :: rest => if e.1 == k then (k, v) :: rest else e :: mapSet rest k v

/-- `new Map(this.settings.posts.map(p => [p.id, p]))` from
TweetStore.updatePostsById: a later array entry with a duplicate id
overwrites an earlier one. -/
def mapById (posts : List TweetWidgetPost) : List (String × TweetWidgetPost) :=
  posts.foldl (fun m p => mapSet m p.id p) []

/-- One step of the loop body of TweetStore.updateChildrenMap: push `post`
onto the bucket of its threadId (resp. quoteId) when that field is set. -/
def childrenMapStep
    (maps : List (String × List TweetWidgetPost) × List (String × List TweetWidgetPost))
    (post : TweetWidgetPost) :
    List (String × List TweetWidgetPost) × List (String × List TweetWidgetPost) :=
  ( match post.threadId with
    | some t => mapSet maps.1 t ((mapGet maps.1 t).getD [] ++ [post])
    | none => maps.1
  , match post.quoteId with
    | some q => mapSet maps.2 q ((mapGet maps.2 q).getD [] ++ [post])
    | none => maps.2 )

/-- TweetStore.updateChildrenMap: rebuild the child map and the quote map by
a single pass over the primary collection. -/
def updateChildrenMap (posts : List TweetWidgetPost) :
    List (String × List TweetWidgetPost) × List (String × List TweetWidgetPost) :=
  posts.foldl childrenMapStep ([], [])

/-- The state of a TweetStore object: the settings holding the primary
collection, and the three derived indices. -/
structure TweetStore where
  settings : TweetWidgetSettings
  postsById : List (String × TweetWidgetPost)
  childrenByThreadId : List (String × List TweetWidgetPost)
  quotesById : List (String × List TweetWidgetPost)
deriving DecidableEq, Repr

/-- TweetStore.updatePostsById: rebuild postsById from settings.posts and
then rebuild the children and quote maps.  Every mutating method ends by
calling this, so we package it as the construction of the whole store state
from a primary collection. -/
def updatePostsById (posts : List TweetWidgetPost) : TweetStore :=
  { settings := { posts := posts }
    postsById := mapById posts
    childrenByThreadId := (updateChildrenMap posts).1
    quotesById := (updateChildrenMap posts).2 }

/-- The TweetStore constructor: adopt the settings and build the indices. -/
def mkStore (settings : TweetWidgetSettings) : TweetStore :=
  updatePostsById settings.posts

/-- TweetStore.setAllSettings: replace the settings wholesale and rebuild
the indices. -/
def setAllSettings (_s : TweetStore) (newSettings : TweetWidgetSettings) : TweetStore :=
  updatePostsById newSettings.posts

/-- Rewrite the last element of `posts` whose id is `i` by `f`.  This models
an in-place JS mutation of the object returned by postsById.get(i): that map
is built later-entry-wins, so the object it holds for `i` is the last array
element with that id. -/
def updateLast (posts : List TweetWidgetPost) (i : String) (f : TweetWidgetPost → TweetWidgetPost) :
    List TweetWidgetPost :=
  match posts with
  | [] => []
  | p :: rest =>
    if rest.any (fun q => q.id == i) then p :: updateLast rest i f
    else if p.id == i then f p :: rest
    else p :: rest

/-- parent.replyCount = (parent.replyCount || 0) + 1; parent.updated = Date.now() -/
def incReply (now : Int) (p : TweetWidgetPost) : TweetWidgetPost :=
  { p with replyCount := some (p.replyCount.getD 0 + 1), updated := now }

/-- target.retweet = (target.retweet || 0) + 1; target.updated = Date.now() -/
def incRetweet (now : Int) (p : TweetWidgetPost) : TweetWidgetPost :=
  { p with retweet := some (p.retweet.getD 0 + 1), updated := now }

/-- parent.replyCount = Math.max(0, (parent.replyCount || 0) - 1) -/
def decReply (p : TweetWidgetPost) : TweetWidgetPost :=
  { p with replyCount := some (max 0 (p.replyCount.getD 0 - 1)) }

/-- target.retweet = Math.max(0, (target.retweet || 0) - 1) -/
def decRetweet (p : TweetWidgetPost) : TweetWidgetPost :=
  { p with retweet := some (max 0 (p.retweet.getD 0 - 1)) }

/-- The guarded in-place counter mutation pattern of the store methods:
`if (ref) \x7b const obj = this.postsById.get(ref); if (obj) \x7b mutate obj \x7d \x7d`.
When the optional reference `o` is set and resolves in the `byId` map, the
referenced object (the last element of `l` with that id, see updateLast) is
mutated by `f`; otherwise nothing happens. -/
def bumpIfPresent (byId : List (String × TweetWidgetPost)) (l : List TweetWidgetPost)
    (o : Option String) (f : TweetWidgetPost → TweetWidgetPost) : List TweetWidgetPost :=
  match o with
  | some i =>
    match mapGet byId i with
    | some _ => updateLast l i f
    | none => l
  | none => l

/-- TweetStore.addPost: unshift the post onto the primary collection; if its
threadId (resp. quoteId) resolves in the pre-call postsById map, bump the
counter and timestamp of that parent (resp. target); rebuild the indices. -/
def addPost (s : TweetStore) (post : TweetWidgetPost) (now : Int) : TweetStore :=
  let posts1 := post :: s.settings.posts
  let posts2 := bumpIfPresent s.postsById posts1 post.threadId (incReply now)
  let posts3 := bumpIfPresent s.postsById posts2 post.quoteId (incRetweet now)
  updatePostsById posts3

/-- TweetStore.updatePost: if the id resolves, Object.assign the updates
onto the post, stamp updated with the current time, and rebuild the
indices; otherwise do nothing. -/
def updatePost (s : TweetStore) (postId : String) (updates : PostUpdates) (now : Int) : TweetStore :=
  match mapGet s.postsById postId with
  | some _ =>
    updatePostsById
      (updateLast s.settings.posts postId (fun post => { applyUpdates post updates with updated := now }))
  | none => s

/-- TweetStore.deletePost: repair the counters of a resolving parent and
quote target, filter the post out of the primary collection, rebuild. -/
def deletePost (s : TweetStore) (postId : String) : TweetStore :=
  let post? := mapGet s.postsById postId
  let posts1 := bumpIfPresent s.postsById s.settings.posts
    (post?.bind TweetWidgetPost.threadId) decReply
  let posts2 := bumpIfPresent s.postsById posts1
    (post?.bind TweetWidgetPost.quoteId) decRetweet
  updatePostsById (posts2.filter (fun p => p.id != postId))

/-- TweetStore.getPostById. -/
def getPostById (s : TweetStore) (postId : String) : Option TweetWidgetPost :=
  mapGet s.postsById postId

/-- TweetStore.getReplies: the child bucket of the id, or empty. -/
def getReplies (s : TweetStore) (parentId : String) : List TweetWidgetPost :=
  (mapGet s.childrenByThreadId parentId).getD []

/-- TweetStore.getQuotePosts: the quote bucket of the id, or empty. -/
def getQuotePosts (s : TweetStore) (postId : String) : List TweetWidgetPost :=
  (mapGet s.quotesById postId).getD []

/-- All ids occurring in the buckets of a children map; the breadth-first
traversal can only ever enqueue ids from this list. -/
def allChildIds (m : List (String × List TweetWidgetPost)) : List String :=
  (m.map (fun e => e.2.map TweetWidgetPost.id)).flatten

/-- The ids of the direct children of `x` recorded in the map `m`. -/
def childIds (m : List (String × List TweetWidgetPost)) (x : String) : List String :=
  ((mapGet m x).getD []).map TweetWidgetPost.id

/-- The inner for-loop of TweetStore.collectThreadIds: for each child not in
the visited set, add it to the visited set and push it onto the queue.
Returns the new visited set and the new queue. -/
def enqueueChildren (children : List TweetWidgetPost) (ids queue : List String) :
    List String × List String :=
  match children with
  | [] => (ids, queue)
  | child :: rest =>
    if ids.contains child.id then enqueueChildren rest ids queue
    else enqueueChildren rest (ids ++ [child.id]) (queue ++ [child.id])

/-- The while-loop of TweetStore.collectThreadIds: dequeue an id, enqueue
its unvisited children, repeat until the queue is empty; the visited set
(in insertion order) is the result.  Termination: the measure counts the
ids of `m` not yet visited, plus the queue length; every id pushed onto the
queue is a previously unvisited id of `m` added to the visited set, so each
loop iteration decreases the measure by exactly one. -/
def bfs (m : List (String × List TweetWidgetPost)) (queue ids : List String) : List String :=
  match queue with
  | [] => ids
  | currentId :: rest =>
    let next := enqueueChildren ((mapGet m currentId).getD []) ids rest
    bfs m next.2 next.1
termination_by ((allChildIds m).toFinset \ ids.toFinset).card + queue.length
decreasing_by
  have hmem : ∀ c ∈ (mapGet m currentId).getD [], c.id ∈ allChildIds m := by
    intro c hc
    cases hget : mapGet m currentId with
    | none => rw [hget] at hc; simp at hc
    | some cs =>
      rw [hget] at hc
      simp only [Option.getD_some] at hc
      unfold mapGet at hget
      rcases Option.map_eq_some'.mp hget with ⟨e, hfind, hsnd⟩
      have hem : e ∈ m := List.mem_of_find?_eq_some hfind
      unfold allChildIds
      rw [List.mem_flatten]
      exact ⟨cs.map TweetWidgetPost.id, by
        rw [List.mem_map]
        exact ⟨e, hem, by rw [hsnd]⟩, List.mem_map_of_mem _ hc⟩
  have key : ∀ (cs : List TweetWidgetPost) (is qs : List String),
      (∀ c ∈ cs, c.id ∈ allChildIds m) →
      ((allChildIds m).toFinset \ (enqueueChildren cs is qs).1.toFinset).card
          + (enqueueChildren cs is qs).2.length
        = ((allChildIds m).toFinset \ is.toFinset).card + qs.length := by
    intro cs
    induction cs with
    | nil => intro is qs _; simp [enqueueChildren]
    | cons c rest ih =>
      intro is qs h
      by_cases hc : is.contains c.id
      · rw [enqueueChildren, if_pos hc]
        exact ih is qs (fun x hx => h x (List.mem_cons_of_mem _ hx))
      · rw [enqueueChildren, if_neg hc]
        rw [ih (is ++ [c.id]) (qs ++ [c.id]) (fun x hx => h x (List.mem_cons_of_mem _ hx))]
        have hnotin : c.id ∉ is := by
          intro hmem2
          exact hc (List.elem_eq_true_of_mem hmem2)
        have hin : c.id ∈ (allChildIds m).toFinset \ is.toFinset := by
          rw [Finset.mem_sdiff]
          constructor
          · rw [List.mem_toFinset]; exact h c (List.mem_cons_self _ _)
          · rw [List.mem_toFinset]; exact hnotin
        have hpos : 0 < ((allChildIds m).toFinset \ is.toFinset).card :=
          Finset.card_pos.mpr ⟨c.id, hin⟩
        have heq : (is ++ [c.id]).toFinset = insert c.id is.toFinset := by
          ext x
          simp [List.mem_toFinset, or_comm]
        rw [heq, Finset.sdiff_insert, Finset.card_erase_of_mem hin, List.length_append]
        simp only [List.length_singleton]
        omega
  rw [key _ _ _ hmem]
  simp only [List.length_cons]
  omega

/-- TweetStore.collectThreadIds: breadth-first traversal of the children
map, seeded with rootId (which is marked visited before the loop). -/
def collectThreadIds (s : TweetStore) (rootId : String) : List String :=
  bfs s.childrenByThreadId [rootId] [rootId]

/-- The body of the for-loop of TweetStore.deleteThread: if the post of id
`i` (looked up in the postsById snapshot) has a quoteId resolving in that
snapshot, decrement the retweet counter of the target. -/
def deleteThreadStep (s : TweetStore) (acc : List TweetWidgetPost) (i : String) :
    List TweetWidgetPost :=
  match mapGet s.postsById i with
  | some p =>
    match p.quoteId with
    | some qid =>
      match mapGet s.postsById qid with
      | some _ => updateLast acc qid decRetweet
      | none => acc
    | none => acc
  | none => acc

/-- TweetStore.deleteThread: compute the subtree ids; if the root post
resolves and has a resolving parent, decrement that parent replyCount; for
every id of the set whose (pre-call) post has a resolving quote target,
decrement that target retweet; filter all the ids out; rebuild. -/
def deleteThread (s : TweetStore) (rootId : String) : TweetStore :=
  let threadIds := collectThreadIds s rootId
  let posts1 := bumpIfPresent s.postsById s.settings.posts
    ((mapGet s.postsById rootId).bind TweetWidgetPost.threadId) decReply
  let posts2 := threadIds.foldl (deleteThreadStep s) posts1
  updatePostsById (posts2.filter (fun p => !(threadIds.contains p.id)))

/-- A public mutating call on the store, with the clock reading passed
explicitly where the method reads Date.now(). -/
inductive Op where
  | add (post : TweetWidgetPost) (now : Int)
  | update (postId : String) (updates : PostUpdates) (now : Int)
  | deleteOne (postId : String)
  | deleteSubtree (rootId : String)
  | replaceAll (newSettings : TweetWidgetSettings)
deriving DecidableEq, Repr

/-- Dispatch one call to the corresponding store method. -/
def applyOp (s : TweetStore) : Op → TweetStore
  | .add post now => addPost s post now
  | .update postId updates now => updatePost s postId updates now
  | .deleteOne postId => deletePost s postId
  | .deleteSubtree rootId => deleteThread s rootId
  | .replaceAll newSettings => setAllSettings s newSettings

/-- Run a sequence of calls. -/
def run (s : TweetStore) (ops : List Op) : TweetStore :=
  ops.foldl applyOp s

/-- The class invariant established by the constructor and re-established by
every mutating method: the three index fields are exactly what a fresh
rebuild from the primary collection produces. -/
def IsFresh (s : TweetStore) : Prop :=
  s = updatePostsById s.settings.posts

instance (s : TweetStore) : Decidable (IsFresh s) := by
  unfold IsFresh; infer_instance

/-- The ids of the posts of a list, in order. -/
def postIds (posts : List TweetWidgetPost) : List String :=
  posts.map TweetWidgetPost.id

/-- Boolean test that the ids of a post list are pairwise distinct. -/
def idsNodupB (posts : List TweetWidgetPost) : Bool :=
  decide (postIds posts).Nodup

/-- A call keeps the ids of the primary collection unique when an inserted
post has a fresh id and a wholesale replacement has unique ids. -/
def opOk (s : TweetStore) : Op → Bool
  | .add post _ => !(s.settings.posts.any (fun q => q.id == post.id))
  | .replaceAll newSettings => idsNodupB newSettings.posts
  | _ => true

/-- All calls of the sequence are id-uniqueness preserving, checked against
the states they actually run in. -/
def seqOk (s : TweetStore) : List Op → Bool
  | [] => true
  | op :: rest => opOk s op && seqOk (applyOp s op) rest

/-- The counters of a post are absent or nonnegative. -/
def countersOkB (p : TweetWidgetPost) : Bool :=
  decide (0 ≤ p.replyCount.getD 0) && decide (0 ≤ p.retweet.getD 0)

/-- The counter values a call feeds into the store are absent or
nonnegative. -/
def opCountersOk : Op → Bool
  | .add post _ => countersOkB post
  | .update _ updates _ =>
    (match updates.replyCount with
     | some (some r) => decide (0 ≤ r)
     | _ => true)
    && (match updates.retweet with
        | some (some r) => decide (0 ≤ r)
        | _ => true)
  | .deleteOne _ => true
  | .deleteSubtree _ => true
  | .replaceAll newSettings => newSettings.posts.all countersOkB

/-- The number of ids in `tids` whose post (in the postsById snapshot of
`s`) quotes `targetId`; deleteThread decrements the retweet counter of
`targetId` once for each of them. -/
def countQuoters (s : TweetStore) (tids : List String) (targetId : String) : Nat :=
  (tids.filter (fun i =>
    match mapGet s.postsById i with
    | some p => p.quoteId == some targetId
    | none => false)).length

/-- Transitive reachability along the child edges recorded in a children
map: the relation the breadth-first traversal of collectThreadIds is meant
to compute. -/
inductive ReachesVia (m : List (String × List TweetWidgetPost)) : String → String → Prop
  | refl (x : String) : ReachesVia m x x
  | step {x y z : String} : ReachesVia m x y → z ∈ childIds m y → ReachesVia m x z

/-! ### Concrete fixtures used by witnesses and counterexamples -/

/-- A post with id "a" standing for an originally stored post. -/
def postA0 : TweetWidgetPost := { id := "a", text := "old" }

/-- A second post reusing id "a". -/
def postA1 : TweetWidgetPost := { id := "a", text := "new" }

/-- A parent post with one reply and a known timestamp. -/
def postP2 : TweetWidgetPost := { id := "p", replyCount := some 1, updated := 5 }

/-- A reply to postP2 with a known timestamp. -/
def postR2 : TweetWidgetPost := { id := "r", threadId := some "p", updated := 5 }

/-- A post carrying a negative replyCount, as a caller may supply. -/
def postNeg : TweetWidgetPost := { id := "n", replyCount := some (-1) }

/-- A parent whose replyCount was never incremented (counter drift). -/
def postP4 : TweetWidgetPost := { id := "p" }

/-- A reply to postP4. -/
def postR4 : TweetWidgetPost := { id := "r", threadId := some "p" }

/-- A grandparent with an accurate replyCount of 1. -/
def postZ : TweetWidgetPost := { id := "z", replyCount := some 1 }

/-- A quote target quoted twice. -/
def postT : TweetWidgetPost := { id := "t", retweet := some 2 }

/-- A thread root replying to postZ and quoting postT. -/
def postA4 : TweetWidgetPost := { id := "a", threadId := some "z", quoteId := some "t" }

/-- A reply to postA4 also quoting postT. -/
def postB4 : TweetWidgetPost := { id := "b", threadId := some "a", quoteId := some "t" }

/-- A post replying to the missing id "a". -/
def postDB : TweetWidgetPost := { id := "b", threadId := some "a" }

/-- A post replying to postDB. -/
def postDC : TweetWidgetPost := { id := "c", threadId := some "b" }

/-- Store with a lone post of id "a". -/
def store9 : TweetStore := mkStore { posts := [postA0] }

/-- Store with a parent and its reply. -/
def store2 : TweetStore := mkStore { posts := [postR2, postP2] }

/-- Store with a drifted parent and its reply. -/
def store4 : TweetStore := mkStore { posts := [postR4, postP4] }

/-- Store with a grandparent, a root, a child and a quote target. -/
def store4w : TweetStore := mkStore { posts := [postB4, postA4, postT, postZ] }

/-- Store with a dangling reply chain under the missing id "a". -/
def store10 : TweetStore := mkStore { posts := [postDB, postDC] }

/-! ### Lemmas about the JS-Map model -/

theorem mapGet_mapSet (m : List (String × α)) (k : String) (v : α) (k' : String) :
    mapGet (mapSet m k v) k' = if k' = k then some v else mapGet m k' := by
  induction m with
  | nil =>
    by_cases h : k' = k
    · subst h
      simp [mapSet, mapGet, List.find?_cons_of_pos]
    · have hb : (k == k') = false := beq_eq_false_iff_ne.mpr (fun hh => h hh.symm)
      simp [mapSet, mapGet, List.find?_cons_of_neg, hb, h]
  | cons e rest ih =>
    rw [mapSet]
    by_cases he : e.1 = k
    · rw [if_pos (by simpa using he)]
      by_cases h : k' = k
      · subst h
        simp [mapGet, List.find?_cons_of_pos, beq_iff_eq]
      · have hb : (k == k') = false := beq_eq_false_iff_ne.mpr (fun hh => h hh.symm)
        have hb2 : (e.1 == k') = false := by
          rw [he]; exact hb
        simp [mapGet, List.find?_cons_of_neg, hb, hb2, h]
    · rw [if_neg (by simpa using he)]
      by_cases hk : e.1 = k'
      · have h1 : ¬ k' = k := fun hh => he (hk.trans hh)
        simp [mapGet, List.find?_cons_of_pos, beq_iff_eq, hk, h1]
      · have hb : (e.1 == k') = false := beq_eq_false_iff_ne.mpr hk
        simp only [mapGet] at ih ⊢
        rw [List.find?_cons_of_neg _ (by simp [hb]), List.find?_cons_of_neg _ (by simp [hb])]
        exact ih

theorem mapGet_mapById_aux (posts : List TweetWidgetPost) (m : List (String × TweetWidgetPost))
    (k : String) :
    mapGet (posts.foldl (fun acc p => mapSet acc p.id p) m) k
      = ((posts.filter (fun p => p.id == k)).getLast?).orElse (fun _ => mapGet m k) := by
  induction posts generalizing m with
  | nil => simp [List.filter]
  | cons p rest ih =>
    rw [List.foldl_cons, ih, List.filter_cons]
    by_cases h : p.id = k
    · rw [if_pos (by simpa using h)]
      cases hr : (rest.filter (fun q => q.id == k)).getLast? with
      | none =>
        have hnil : rest.filter (fun q => q.id == k) = [] := by
          cases hx : rest.filter (fun q => q.id == k) with
          | nil => rfl
          | cons a tl => rw [hx] at hr; simp [List.getLast?_concat] at hr
        simp [hnil, hr, Option.orElse, mapGet_mapSet, h]
      | some q =>
        cases hx : rest.filter (fun q => q.id == k) with
        | nil => rw [hx] at hr; simp at hr
        | cons a tl =>
          rw [hx] at hr
          rw [List.getLast?_cons_cons, hr]
          simp [Option.orElse]
    · rw [if_neg (by simpa using h)]
      rw [mapGet_mapSet, if_neg (fun hk => h hk.symm)]

/-- The map built from the posts array maps each id to the last array entry
carrying it (later entries overwrite earlier ones). -/
theorem mapGet_mapById (posts : List TweetWidgetPost) (k : String) :
    mapGet (mapById posts) k = (posts.filter (fun p => p.id == k)).getLast? := by
  have h := mapGet_mapById_aux posts [] k
  rw [mapById, h]
  cases (posts.filter (fun p => p.id == k)).getLast? <;> simp [mapGet, List.find?, Option.orElse]

theorem filter_eq_single_of_nodup (posts : List TweetWidgetPost) (p : TweetWidgetPost)
    (h : (postIds posts).Nodup) (hp : p ∈ posts) :
    posts.filter (fun q => q.id == p.id) = [p] := by
  induction posts with
  | nil => cases hp
  | cons x rest ih =>
    rw [postIds, List.map_cons, List.nodup_cons] at h
    rcases List.mem_cons.mp hp with hpx | hpr
    · subst hpx
      rw [List.filter_cons, if_pos (by simp)]
      have : rest.filter (fun q => q.id == p.id) = [] := by
        rw [List.filter_eq_nil_iff]
        intro a ha hqa
        apply h.1
        have hap : a.id = p.id := by simpa using hqa
        rw [← hap]
        exact List.mem_map_of_mem TweetWidgetPost.id ha
      rw [this]
    · have hne : x.id ≠ p.id := by
        intro he
        exact h.1 (he ▸ List.mem_map_of_mem TweetWidgetPost.id hpr)
      rw [List.filter_cons, if_neg (by simpa using hne)]
      exact ih h.2 hpr

theorem mapGet_mapById_of_nodup (posts : List TweetWidgetPost) (p : TweetWidgetPost)
    (h : (postIds posts).Nodup) (hp : p ∈ posts) :
    mapGet (mapById posts) p.id = some p := by
  rw [mapGet_mapById, filter_eq_single_of_nodup posts p h hp]
  rfl

theorem mapGet_mapById_eq_none (posts : List TweetWidgetPost) (k : String)
    (h : ∀ p ∈ posts, p.id ≠ k) :
    mapGet (mapById posts) k = none := by
  rw [mapGet_mapById]
  have : posts.filter (fun p => p.id == k) = [] := by
    rw [List.filter_eq_nil_iff]
    intro a ha hqa
    exact h a ha (by simpa using hqa)
  rw [this]
  rfl

/-! ### Lemmas about updateLast -/

theorem postIds_updateLast (l : List TweetWidgetPost) (i : String)
    (f : TweetWidgetPost → TweetWidgetPost) (hf : ∀ x, (f x).id = x.id) :
    postIds (updateLast l i f) = postIds l := by
  induction l with
  | nil => rfl
  | cons p rest ih =>
    rw [updateLast]
    split
    · rw [postIds, List.map_cons]
      rw [postIds] at ih
      rw [ih]
      rfl
    · split
      · simp [postIds, hf]
      · rfl

theorem mem_updateLast (l : List TweetWidgetPost) (i : String)
    (f : TweetWidgetPost → TweetWidgetPost) (q : TweetWidgetPost)
    (hq : q ∈ updateLast l i f) : q ∈ l ∨ ∃ x, x ∈ l ∧ q = f x := by
  induction l with
  | nil => cases hq
  | cons p rest ih =>
    rw [updateLast] at hq
    split at hq
    · rcases List.mem_cons.mp hq with h | h
      · exact Or.inl (h ▸ List.mem_cons_self _ _)
      · rcases ih h with h2 | ⟨x, hx, he⟩
        · exact Or.inl (List.mem_cons_of_mem _ h2)
        · exact Or.inr ⟨x, List.mem_cons_of_mem _ hx, he⟩
    · split at hq
      · rcases List.mem_cons.mp hq with h | h
        · exact Or.inr ⟨p, List.mem_cons_self _ _, h⟩
        · exact Or.inl (List.mem_cons_of_mem _ h)
      · exact Or.inl hq

theorem find?_id_eq_none_of_not_any (l : List TweetWidgetPost) (k : String)
    (h : l.any (fun q => q.id == k) = false) :
    l.find? (fun q => q.id == k) = none := by
  rw [List.find?_eq_none]
  rw [List.any_eq_false] at h
  intro x hx
  exact h x hx

theorem find?_id_updateLast (l : List TweetWidgetPost) (i : String)
    (f : TweetWidgetPost → TweetWidgetPost) (k : String)
    (hnd : (postIds l).Nodup) (hf : ∀ x, (f x).id = x.id) :
    (updateLast l i f).find? (fun p => p.id == k)
      = if k = i then (l.find? (fun p => p.id == k)).map f
        else l.find? (fun p => p.id == k) := by
  induction l with
  | nil => rw [updateLast]; split <;> simp
  | cons p rest ih =>
    rw [postIds, List.map_cons, List.nodup_cons] at hnd
    have ihr := ih hnd.2
    rw [updateLast]
    split
    · rename_i hany
      have hpi : p.id ≠ i := by
        intro he
        rcases List.any_eq_true.mp hany with ⟨x, hx, hb⟩
        have hxi : x.id = i := by simpa using hb
        apply hnd.1
        rw [he, ← hxi]
        exact List.mem_map_of_mem TweetWidgetPost.id hx
      by_cases hk : k = i
      · subst hk
        rw [if_pos rfl] at ihr ⊢
        rw [List.find?_cons_of_neg _ (by simpa using hpi),
            List.find?_cons_of_neg _ (by simpa using hpi), ihr]
      · rw [if_neg hk] at ihr ⊢
        by_cases hpk : p.id = k
        · rw [List.find?_cons_of_pos _ (by simpa using hpk),
              List.find?_cons_of_pos _ (by simpa using hpk)]
        · rw [List.find?_cons_of_neg _ (by simpa using hpk),
              List.find?_cons_of_neg _ (by simpa using hpk), ihr]
    · rename_i hany
      have hanyf : rest.any (fun q => q.id == i) = false := by
        cases hx : rest.any (fun q => q.id == i)
        · rfl
        · exact absurd hx hany
      split
      · rename_i hpi
        have hpi' : p.id = i := by simpa using hpi
        by_cases hk : k = i
        · subst hk
          rw [if_pos rfl]
          rw [List.find?_cons_of_pos _ (by simp [hf, hpi']),
              List.find?_cons_of_pos _ (by simpa using hpi')]
          rfl
        · rw [if_neg hk]
          have h1 : ¬ ((f p).id = k) := by
            rw [hf, hpi']
            exact fun he => hk he.symm
          have h2 : ¬ (p.id = k) := by
            rw [hpi']
            exact fun he => hk he.symm
          rw [List.find?_cons_of_neg _ (by simpa using h1),
              List.find?_cons_of_neg _ (by simpa using h2)]
      · rename_i hpi
        have hpi' : p.id ≠ i := by simpa using hpi
        by_cases hk : k = i
        · subst hk
          rw [if_pos rfl]
          rw [List.find?_cons_of_neg _ (by simpa using hpi')]
          rw [find?_id_eq_none_of_not_any rest _ hanyf]
          rfl
        · rw [if_neg hk]

/-! ### The rebuilt children and quote maps are the filters of the primary
collection -/

theorem childrenMap_foldl_fst (posts : List TweetWidgetPost) (t : String) :
    ∀ acc : List (String × List TweetWidgetPost) × List (String × List TweetWidgetPost),
    (mapGet (posts.foldl childrenMapStep acc).1 t).getD []
      = (mapGet acc.1 t).getD [] ++ posts.filter (fun p => p.threadId == some t) := by
  induction posts with
  | nil => intro acc; simp
  | cons p rest ih =>
    intro acc
    rw [List.foldl_cons, ih, List.filter_cons]
    cases hp : p.threadId with
    | none =>
      have hstep : (childrenMapStep acc p).1 = acc.1 := by
        rw [childrenMapStep, hp]
      rw [hstep]
      simp
    | some t' =>
      have hstep : (childrenMapStep acc p).1
          = mapSet acc.1 t' ((mapGet acc.1 t').getD [] ++ [p]) := by
        rw [childrenMapStep, hp]
      rw [hstep, mapGet_mapSet]
      by_cases ht : t = t'
      · subst ht
        rw [if_pos rfl]
        simp
      · rw [if_neg ht]
        have hb : (some t' == some t) = false := by
          simpa using fun he => ht he.symm
        rw [hb]
        simp

theorem childrenMap_foldl_snd (posts : List TweetWidgetPost) (t : String) :
    ∀ acc : List (String × List TweetWidgetPost) × List (String × List TweetWidgetPost),
    (mapGet (posts.foldl childrenMapStep acc).2 t).getD []
      = (mapGet acc.2 t).getD [] ++ posts.filter (fun p => p.quoteId == some t) := by
  induction posts with
  | nil => intro acc; simp
  | cons p rest ih =>
    intro acc
    rw [List.foldl_cons, ih, List.filter_cons]
    cases hp : p.quoteId with
    | none =>
      have hstep : (childrenMapStep acc p).2 = acc.2 := by
        rw [childrenMapStep, hp]
      rw [hstep]
      simp
    | some t' =>
      have hstep : (childrenMapStep acc p).2
          = mapSet acc.2 t' ((mapGet acc.2 t').getD [] ++ [p]) := by
        rw [childrenMapStep, hp]
      rw [hstep, mapGet_mapSet]
      by_cases ht : t = t'
      · subst ht
        rw [if_pos rfl]
        simp
      · rw [if_neg ht]
        have hb : (some t' == some t) = false := by
          simpa using fun he => ht he.symm
        rw [hb]
        simp

theorem updateChildrenMap_fst_get (posts : List TweetWidgetPost) (t : String) :
    (mapGet (updateChildrenMap posts).1 t).getD []
      = posts.filter (fun p => p.threadId == some t) := by
  rw [updateChildrenMap, childrenMap_foldl_fst]
  simp [mapGet, List.find?]

theorem updateChildrenMap_snd_get (posts : List TweetWidgetPost) (t : String) :
    (mapGet (updateChildrenMap posts).2 t).getD []
      = posts.filter (fun p => p.quoteId == some t) := by
  rw [updateChildrenMap, childrenMap_foldl_snd]
  simp [mapGet, List.find?]

/-! ### Lemmas about the breadth-first traversal -/

theorem enqueueChildren_fst_mono (cs : List TweetWidgetPost) :
    ∀ ids queue x, x ∈ ids → x ∈ (enqueueChildren cs ids queue).1 := by
  induction cs with
  | nil => intro ids queue x hx; exact hx
  | cons c rest ih =>
    intro ids queue x hx
    rw [enqueueChildren]
    split
    · exact ih ids queue x hx
    · exact ih _ _ x (List.mem_append_left _ hx)

theorem enqueueChildren_fst_of_mem (cs : List TweetWidgetPost) :
    ∀ ids queue c, c ∈ cs → c.id ∈ (enqueueChildren cs ids queue).1 := by
  induction cs with
  | nil => intro ids queue c hc; cases hc
  | cons c0 rest ih =>
    intro ids queue c hc
    rw [enqueueChildren]
    rcases List.mem_cons.mp hc with hc0 | hcr
    · subst hc0
      split
      · rename_i hcont
        exact enqueueChildren_fst_mono rest ids queue c.id (by simpa using hcont)
      · exact enqueueChildren_fst_mono rest _ _ c.id
          (List.mem_append_right _ (List.mem_singleton.mpr rfl))
    · split
      · exact ih ids queue c hcr
      · exact ih _ _ c hcr

theorem enqueueChildren_fst_sub (cs : List TweetWidgetPost) :
    ∀ ids queue x, x ∈ (enqueueChildren cs ids queue).1 →
      x ∈ ids ∨ x ∈ cs.map TweetWidgetPost.id := by
  induction cs with
  | nil => intro ids queue x hx; exact Or.inl hx
  | cons c rest ih =>
    intro ids queue x hx
    rw [enqueueChildren] at hx
    split at hx
    · rcases ih ids queue x hx with h | h
      · exact Or.inl h
      · exact Or.inr (List.mem_cons_of_mem _ h)
    · rcases ih _ _ x hx with h | h
      · rcases List.mem_append.mp h with h2 | h2
        · exact Or.inl h2
        · rw [List.mem_singleton.mp h2]
          exact Or.inr (by rw [List.map_cons]; exact List.mem_cons_self _ _)
      · exact Or.inr (List.mem_cons_of_mem _ h)

theorem enqueueChildren_snd_sub (cs : List TweetWidgetPost) :
    ∀ ids queue x, x ∈ (enqueueChildren cs ids queue).2 →
      x ∈ queue ∨ x ∈ cs.map TweetWidgetPost.id := by
  induction cs with
  | nil => intro ids queue x hx; exact Or.inl hx
  | cons c rest ih =>
    intro ids queue x hx
    rw [enqueueChildren] at hx
    split at hx
    · rcases ih ids queue x hx with h | h
      · exact Or.inl h
      · exact Or.inr (List.mem_cons_of_mem _ h)
    · rcases ih _ _ x hx with h | h
      · rcases List.mem_append.mp h with h2 | h2
        · exact Or.inl h2
        · rw [List.mem_singleton.mp h2]
          exact Or.inr (by rw [List.map_cons]; exact List.mem_cons_self _ _)
      · exact Or.inr (List.mem_cons_of_mem _ h)

theorem enqueueChildren_snd_mono (cs : List TweetWidgetPost) :
    ∀ ids queue x, x ∈ queue → x ∈ (enqueueChildren cs ids queue).2 := by
  induction cs with
  | nil => intro ids queue x hx; exact hx
  | cons c rest ih =>
    intro ids queue x hx
    rw [enqueueChildren]
    split
    · exact ih ids queue x hx
    · exact ih _ _ x (List.mem_append_left _ hx)

theorem enqueueChildren_fst_nodup (cs : List TweetWidgetPost) :
    ∀ ids queue, ids.Nodup → (enqueueChildren cs ids queue).1.Nodup := by
  induction cs with
  | nil => intro ids queue h; exact h
  | cons c rest ih =>
    intro ids queue h
    rw [enqueueChildren]
    split
    · exact ih ids queue h
    · rename_i hcont
      refine ih _ _ ?_
      rw [List.nodup_append]
      refine ⟨h, List.nodup_singleton _, ?_⟩
      intro a ha hb
      rw [List.mem_singleton.mp hb] at ha
      have hcid : c.id ∉ ids := by simpa using hcont
      exact hcid ha

theorem enqueueChildren_snd_of_new (cs : List TweetWidgetPost) :
    ∀ ids queue x, x ∈ (enqueueChildren cs ids queue).1 → x ∉ ids →
      x ∈ (enqueueChildren cs ids queue).2 := by
  induction cs with
  | nil => intro ids queue x hx hni; exact absurd hx hni
  | cons c rest ih =>
    intro ids queue x hx hni
    rw [enqueueChildren] at hx ⊢
    by_cases hcont : ids.contains c.id = true
    · rw [if_pos hcont] at hx ⊢
      exact ih ids queue x hx hni
    · rw [if_neg hcont] at hx ⊢
      by_cases hxi : x ∈ ids ++ [c.id]
      · rcases List.mem_append.mp hxi with h | h
        · exact absurd h hni
        · exact enqueueChildren_snd_mono rest _ _ x (List.mem_append_right _ h)
      · exact ih _ _ x hx hxi

theorem mem_allChildIds (m : List (String × List TweetWidgetPost)) (k : String)
    (c : TweetWidgetPost) (hc : c ∈ (mapGet m k).getD []) : c.id ∈ allChildIds m := by
  cases hget : mapGet m k with
  | none => rw [hget] at hc; simp at hc
  | some cs =>
    rw [hget] at hc
    simp only [Option.getD_some] at hc
    unfold mapGet at hget
    rcases Option.map_eq_some'.mp hget with ⟨e, hfind, hsnd⟩
    have hem : e ∈ m := List.mem_of_find?_eq_some hfind
    unfold allChildIds
    rw [List.mem_flatten]
    refine ⟨cs.map TweetWidgetPost.id, ?_, List.mem_map_of_mem _ hc⟩
    rw [List.mem_map]
    exact ⟨e, hem, by rw [hsnd]⟩

theorem bfs_mono (m : List (String × List TweetWidgetPost)) :
    ∀ queue ids, ∀ x ∈ ids, x ∈ bfs m queue ids := by
  intro queue ids
  induction queue, ids using bfs.induct m with
  | case1 ids => intro x hx; rw [bfs]; exact hx
  | case2 ids currentId rest next ih =>
    intro x hx
    rw [bfs]
    exact ih x (enqueueChildren_fst_mono _ _ _ x hx)

theorem bfs_nodup (m : List (String × List TweetWidgetPost)) :
    ∀ queue ids, ids.Nodup → (bfs m queue ids).Nodup := by
  intro queue ids
  induction queue, ids using bfs.induct m with
  | case1 ids => intro h; rw [bfs]; exact h
  | case2 ids currentId rest next ih =>
    intro h
    rw [bfs]
    exact ih (enqueueChildren_fst_nodup _ _ _ h)

theorem bfs_subset (m : List (String × List TweetWidgetPost)) :
    ∀ queue ids, ∀ x ∈ bfs m queue ids, x ∈ ids ∨ x ∈ allChildIds m := by
  intro queue ids
  induction queue, ids using bfs.induct m with
  | case1 ids => intro x hx; rw [bfs] at hx; exact Or.inl hx
  | case2 ids currentId rest next ih =>
    intro x hx
    rw [bfs] at hx
    rcases ih x hx with h | h
    · rcases enqueueChildren_fst_sub _ _ _ x h with h2 | h2
      · exact Or.inl h2
      · right
        rcases List.mem_map.mp h2 with ⟨c, hc, he⟩
        rw [← he]
        exact mem_allChildIds m currentId c hc
    · exact Or.inr h

theorem bfs_sound (m : List (String × List TweetWidgetPost)) (R : String → Prop)
    (hstep : ∀ x y, R x → y ∈ childIds m x → R y) :
    ∀ queue ids, (∀ q ∈ queue, R q) → (∀ x ∈ ids, R x) → ∀ x ∈ bfs m queue ids, R x := by
  intro queue ids
  induction queue, ids using bfs.induct m with
  | case1 ids => intro _ hids x hx; rw [bfs] at hx; exact hids x hx
  | case2 ids currentId rest next ih =>
    intro hq hids x hx
    rw [bfs] at hx
    have hcur : R currentId := hq currentId (List.mem_cons_self _ _)
    have hchild : ∀ y ∈ ((mapGet m currentId).getD []).map TweetWidgetPost.id, R y := by
      intro y hy
      exact hstep currentId y hcur hy
    refine ih ?_ ?_ x hx
    · intro q hq2
      rcases enqueueChildren_snd_sub _ _ _ q hq2 with h | h
      · exact hq q (List.mem_cons_of_mem _ h)
      · exact hchild q h
    · intro z hz
      rcases enqueueChildren_fst_sub _ _ _ z hz with h | h
      · exact hids z h
      · exact hchild z h

theorem bfs_closed (m : List (String × List TweetWidgetPost)) :
    ∀ queue ids,
    (∀ x ∈ ids, x ∈ queue ∨ ∀ c ∈ childIds m x, c ∈ ids) →
    ∀ x ∈ bfs m queue ids, ∀ c ∈ childIds m x, c ∈ bfs m queue ids := by
  intro queue ids
  induction queue, ids using bfs.induct m with
  | case1 ids =>
    intro hinv x hx c hc
    rw [bfs] at hx ⊢
    rcases hinv x hx with h | h
    · cases h
    · exact h c hc
  | case2 ids currentId rest next ih =>
    intro hinv x hx c hc
    rw [bfs] at hx ⊢
    refine ih ?_ x hx c hc
    intro z hz
    by_cases hzi : z ∈ ids
    · rcases hinv z hzi with h | h
      · rcases List.mem_cons.mp h with h2 | h2
        · subst h2
          right
          intro c2 hc2
          rcases List.mem_map.mp hc2 with ⟨ch, hch, he⟩
          rw [← he]
          exact enqueueChildren_fst_of_mem _ _ _ ch hch
        · exact Or.inl (enqueueChildren_snd_mono _ _ _ z h2)
      · right
        intro c2 hc2
        exact enqueueChildren_fst_mono _ _ _ c2 (h c2 hc2)
    · exact Or.inl (enqueueChildren_snd_of_new _ _ _ z hz hzi)

theorem reach_mem_of_closed (m : List (String × List TweetWidgetPost)) (S : List String)
    (root : String) (hroot : root ∈ S)
    (hclosed : ∀ x ∈ S, ∀ c ∈ childIds m x, c ∈ S) :
    ∀ i, ReachesVia m root i → i ∈ S := by
  intro i h
  induction h with
  | refl => exact hroot
  | step h1 h2 ih => exact hclosed _ ih _ h2

/-! ### Tracking a single post through the deleteThread loop -/

theorem postIds_deleteThreadStep (s : TweetStore) (acc : List TweetWidgetPost) (i : String) :
    postIds (deleteThreadStep s acc i) = postIds acc := by
  rw [deleteThreadStep]
  split
  · split
    · split
      · exact postIds_updateLast acc _ decRetweet (fun x => rfl)
      · rfl
    · rfl
  · rfl

theorem postIds_foldl_deleteThreadStep (s : TweetStore) :
    ∀ (tids : List String) (acc : List TweetWidgetPost),
    postIds (tids.foldl (deleteThreadStep s) acc) = postIds acc := by
  intro tids
  induction tids with
  | nil => intro acc; rfl
  | cons i rest ih =>
    intro acc
    rw [List.foldl_cons, ih, postIds_deleteThreadStep]

theorem find?_foldl_deleteThreadStep (s : TweetStore) (t : String)
    (ht : (mapGet s.postsById t).isSome) :
    ∀ (tids : List String) (acc : List TweetWidgetPost), (postIds acc).Nodup →
    (tids.foldl (deleteThreadStep s) acc).find? (fun p => p.id == t)
      = (acc.find? (fun p => p.id == t)).map (fun p => decRetweet^[countQuoters s tids t] p) := by
  intro tids
  induction tids with
  | nil =>
    intro acc _
    simp [countQuoters]
  | cons i rest ih =>
    intro acc hnd
    rw [List.foldl_cons]
    cases hi : mapGet s.postsById i with
    | none =>
      have hstep : deleteThreadStep s acc i = acc := by simp only [deleteThreadStep, hi]
      rw [hstep, ih acc hnd]
      have hcount : countQuoters s (i :: rest) t = countQuoters s rest t := by
        rw [countQuoters, List.filter_cons]
        rw [if_neg (by rw [hi]; simp)]
        rfl
      rw [hcount]
    | some p =>
      cases hq : p.quoteId with
      | none =>
        have hstep : deleteThreadStep s acc i = acc := by simp only [deleteThreadStep, hi, hq]
        rw [hstep, ih acc hnd]
        have hcount : countQuoters s (i :: rest) t = countQuoters s rest t := by
          rw [countQuoters, List.filter_cons]
          rw [if_neg (by rw [hi]; simp [hq])]
          rfl
        rw [hcount]
      | some qid =>
        cases hqr : mapGet s.postsById qid with
        | none =>
          have hstep : deleteThreadStep s acc i = acc := by simp only [deleteThreadStep, hi, hq, hqr]
          have hqt : qid ≠ t := by
            intro he
            rw [he] at hqr
            rw [hqr] at ht
            simp at ht
          rw [hstep, ih acc hnd]
          have hcount : countQuoters s (i :: rest) t = countQuoters s rest t := by
            rw [countQuoters, List.filter_cons]
            rw [if_neg (by rw [hi]; simp [hq]; exact hqt)]
            rfl
          rw [hcount]
        | some target =>
          have hstep : deleteThreadStep s acc i = updateLast acc qid decRetweet := by
            simp only [deleteThreadStep, hi, hq, hqr]
          rw [hstep]
          have hnd2 : (postIds (updateLast acc qid decRetweet)).Nodup := by
            rw [postIds_updateLast acc qid decRetweet (fun x => rfl)]
            exact hnd
          rw [ih _ hnd2]
          rw [find?_id_updateLast acc qid decRetweet t hnd (fun x => rfl)]
          by_cases hqt : t = qid
          · subst hqt
            rw [if_pos rfl]
            have hcount : countQuoters s (i :: rest) t = countQuoters s rest t + 1 := by
              rw [countQuoters, List.filter_cons]
              rw [if_pos (by rw [hi]; simp [hq])]
              rw [List.length_cons]
              rfl
            rw [hcount, Option.map_map]
            congr 1
          · rw [if_neg hqt]
            have hcount : countQuoters s (i :: rest) t = countQuoters s rest t := by
              rw [countQuoters, List.filter_cons]
              rw [if_neg (by rw [hi]; simp [hq]; exact fun he => hqt he.symm)]
              rfl
            rw [hcount]

theorem decRetweet_iterate_id (p : TweetWidgetPost) (k : Nat) :
    (decRetweet^[k] p).id = p.id
      ∧ (decRetweet^[k] p).threadId = p.threadId
      ∧ (decRetweet^[k] p).quoteId = p.quoteId
      ∧ (decRetweet^[k] p).replyCount = p.replyCount
      ∧ (decRetweet^[k] p).updated = p.updated
      ∧ (decRetweet^[k] p).text = p.text := by
  induction k with
  | zero => simp
  | succ n ih =>
    rw [Function.iterate_succ_apply']
    rcases ih with ⟨h1, h2, h3, h4, h5, h6⟩
    exact ⟨h1, h2, h3, h4, h5, h6⟩

theorem decRetweet_iterate_retweet (p : TweetWidgetPost) (k : Nat) (hk : k ≠ 0) :
    (decRetweet^[k] p).retweet = some (max 0 (p.retweet.getD 0 - k)) := by
  induction k with
  | zero => exact absurd rfl hk
  | succ n ih =>
    rw [Function.iterate_succ_apply']
    by_cases hn : n = 0
    · subst hn
      simp [decRetweet]
    · rw [show (decRetweet (decRetweet^[n] p)).retweet
          = some (max 0 ((decRetweet^[n] p).retweet.getD 0 - 1)) from rfl]
      rw [ih hn]
      simp only [Option.getD_some]
      congr 1
      push_cast
      omega

/-! ### Lemmas about the guarded counter bump and the store operations -/

theorem bumpIfPresent_none (byId : List (String × TweetWidgetPost))
    (l : List TweetWidgetPost) (f : TweetWidgetPost → TweetWidgetPost) :
    bumpIfPresent byId l none f = l := rfl

theorem bumpIfPresent_some (byId : List (String × TweetWidgetPost))
    (l : List TweetWidgetPost) (i : String) (f : TweetWidgetPost → TweetWidgetPost) :
    bumpIfPresent byId l (some i) f
      = match mapGet byId i with
        | some _ => updateLast l i f
        | none => l := rfl

theorem postIds_bumpIfPresent (byId : List (String × TweetWidgetPost))
    (l : List TweetWidgetPost) (o : Option String) (f : TweetWidgetPost → TweetWidgetPost)
    (hf : ∀ x, (f x).id = x.id) :
    postIds (bumpIfPresent byId l o f) = postIds l := by
  cases o with
  | none => rw [bumpIfPresent_none]
  | some i =>
    rw [bumpIfPresent_some]
    cases hm : mapGet byId i with
    | none => rfl
    | some v => exact postIds_updateLast l i f hf

theorem mem_bumpIfPresent (byId : List (String × TweetWidgetPost))
    (l : List TweetWidgetPost) (o : Option String) (f : TweetWidgetPost → TweetWidgetPost)
    (q : TweetWidgetPost) (hq : q ∈ bumpIfPresent byId l o f) :
    q ∈ l ∨ ∃ x, x ∈ l ∧ q = f x := by
  cases o with
  | none => rw [bumpIfPresent_none] at hq; exact Or.inl hq
  | some i =>
    rw [bumpIfPresent_some] at hq
    cases hm : mapGet byId i with
    | none => rw [hm] at hq; exact Or.inl hq
    | some v =>
      rw [hm] at hq
      exact mem_updateLast l i f q hq

theorem find?_id_bumpIfPresent (byId : List (String × TweetWidgetPost))
    (l : List TweetWidgetPost) (o : Option String) (f : TweetWidgetPost → TweetWidgetPost)
    (k : String) (hnd : (postIds l).Nodup) (hf : ∀ x, (f x).id = x.id) :
    (bumpIfPresent byId l o f).find? (fun p => p.id == k)
      = if o = some k ∧ (mapGet byId k).isSome = true
        then (l.find? (fun p => p.id == k)).map f
        else l.find? (fun p => p.id == k) := by
  cases o with
  | none => rw [bumpIfPresent_none, if_neg (by simp)]
  | some i =>
    rw [bumpIfPresent_some]
    cases hm : mapGet byId i with
    | none =>
      rw [if_neg]
      rintro ⟨h1, h2⟩
      rw [show i = k from by simpa using h1] at hm
      rw [hm] at h2
      cases h2
    | some v =>
      rw [find?_id_updateLast l i f k hnd hf]
      by_cases hik : k = i
      · subst hik
        rw [if_pos rfl, if_pos ⟨rfl, by rw [hm]; rfl⟩]
      · rw [if_neg hik, if_neg (by rintro ⟨h1, _⟩; exact hik (by simpa using h1.symm))]

theorem isFresh_updatePostsById (posts : List TweetWidgetPost) :
    IsFresh (updatePostsById posts) := rfl

theorem isFresh_mkStore (st : TweetWidgetSettings) : IsFresh (mkStore st) := rfl

theorem isFresh_applyOp (s : TweetStore) (op : Op) (h : IsFresh s) :
    IsFresh (applyOp s op) := by
  cases op with
  | add post now => exact rfl
  | update postId updates now =>
    rw [applyOp, updatePost]
    cases mapGet s.postsById postId with
    | some v => exact rfl
    | none => exact h
  | deleteOne postId => exact rfl
  | deleteSubtree rootId => exact rfl
  | replaceAll newSettings => exact rfl

theorem postIds_addPost (s : TweetStore) (p : TweetWidgetPost) (now : Int) :
    postIds (addPost s p now).settings.posts = p.id :: postIds s.settings.posts := by
  have he : (addPost s p now).settings.posts
      = bumpIfPresent s.postsById
          (bumpIfPresent s.postsById (p :: s.settings.posts) p.threadId (incReply now))
          p.quoteId (incRetweet now) := rfl
  rw [he, postIds_bumpIfPresent _ _ _ (incRetweet now) (fun x => rfl),
      postIds_bumpIfPresent _ _ _ (incReply now) (fun x => rfl)]
  rfl

theorem postIds_updatePost (s : TweetStore) (postId : String) (u : PostUpdates) (now : Int) :
    postIds (updatePost s postId u now).settings.posts = postIds s.settings.posts := by
  rw [updatePost]
  cases mapGet s.postsById postId with
  | some v =>
    exact postIds_updateLast s.settings.posts postId _ (fun x => rfl)
  | none => rfl

theorem postIds_deletePost_sublist (s : TweetStore) (postId : String) :
    (postIds (deletePost s postId).settings.posts).Sublist (postIds s.settings.posts) := by
  have he : (deletePost s postId).settings.posts
      = (bumpIfPresent s.postsById
          (bumpIfPresent s.postsById s.settings.posts
            ((mapGet s.postsById postId).bind TweetWidgetPost.threadId) decReply)
          ((mapGet s.postsById postId).bind TweetWidgetPost.quoteId) decRetweet).filter
            (fun p => p.id != postId) := rfl
  rw [he]
  have h1 := List.filter_sublist (p := fun p => p.id != postId)
    (l := bumpIfPresent s.postsById
      (bumpIfPresent s.postsById s.settings.posts
        ((mapGet s.postsById postId).bind TweetWidgetPost.threadId) decReply)
      ((mapGet s.postsById postId).bind TweetWidgetPost.quoteId) decRetweet)
  have h2 := h1.map TweetWidgetPost.id
  rw [show ∀ l : List TweetWidgetPost, l.map TweetWidgetPost.id = postIds l from fun l => rfl] at h2
  rw [show ∀ l : List TweetWidgetPost, l.map TweetWidgetPost.id = postIds l from fun l => rfl] at h2
  rw [postIds_bumpIfPresent _ _ _ decRetweet (fun x => rfl),
      postIds_bumpIfPresent _ _ _ decReply (fun x => rfl)] at h2
  exact h2

theorem postIds_deleteThread_sublist (s : TweetStore) (rootId : String) :
    (postIds (deleteThread s rootId).settings.posts).Sublist (postIds s.settings.posts) := by
  have he : (deleteThread s rootId).settings.posts
      = ((collectThreadIds s rootId).foldl (deleteThreadStep s)
          (bumpIfPresent s.postsById s.settings.posts
            ((mapGet s.postsById rootId).bind TweetWidgetPost.threadId) decReply)).filter
            (fun p => !((collectThreadIds s rootId).contains p.id)) := rfl
  rw [he]
  have h1 := List.filter_sublist (p := fun p => !((collectThreadIds s rootId).contains p.id))
    (l := (collectThreadIds s rootId).foldl (deleteThreadStep s)
      (bumpIfPresent s.postsById s.settings.posts
        ((mapGet s.postsById rootId).bind TweetWidgetPost.threadId) decReply))
  have h2 := h1.map TweetWidgetPost.id
  rw [show ∀ l : List TweetWidgetPost, l.map TweetWidgetPost.id = postIds l from fun l => rfl] at h2
  rw [show ∀ l : List TweetWidgetPost, l.map TweetWidgetPost.id = postIds l from fun l => rfl] at h2
  rw [postIds_foldl_deleteThreadStep,
      postIds_bumpIfPresent _ _ _ decReply (fun x => rfl)] at h2
  exact h2

theorem nodup_applyOp (s : TweetStore) (op : Op)
    (h : idsNodupB s.settings.posts = true) (hok : opOk s op = true) :
    idsNodupB (applyOp s op).settings.posts = true := by
  rw [idsNodupB, decide_eq_true_iff] at h ⊢
  cases op with
  | add p now =>
    rw [applyOp, postIds_addPost, List.nodup_cons]
    refine ⟨?_, h⟩
    rw [opOk, Bool.not_eq_true', List.any_eq_false] at hok
    intro hmem
    rcases List.mem_map.mp hmem with ⟨q, hq, he⟩
    exact hok q hq (by simpa using he)
  | update postId updates now =>
    rw [applyOp, postIds_updatePost]
    exact h
  | deleteOne postId =>
    exact (postIds_deletePost_sublist s postId).nodup h
  | deleteSubtree rootId =>
    exact (postIds_deleteThread_sublist s rootId).nodup h
  | replaceAll newSettings =>
    rw [opOk, idsNodupB, decide_eq_true_iff] at hok
    exact hok

/-! ### Counter nonnegativity is preserved by every operation -/

theorem countersOkB_incReply (now : Int) (x : TweetWidgetPost)
    (h : countersOkB x = true) : countersOkB (incReply now x) = true := by
  simp only [countersOkB, incReply, Bool.and_eq_true, decide_eq_true_eq,
    Option.getD_some] at h ⊢
  exact ⟨by omega, h.2⟩

theorem countersOkB_incRetweet (now : Int) (x : TweetWidgetPost)
    (h : countersOkB x = true) : countersOkB (incRetweet now x) = true := by
  simp only [countersOkB, incRetweet, Bool.and_eq_true, decide_eq_true_eq,
    Option.getD_some] at h ⊢
  exact ⟨h.1, by omega⟩

theorem countersOkB_decReply (x : TweetWidgetPost)
    (h : countersOkB x = true) : countersOkB (decReply x) = true := by
  simp only [countersOkB, decReply, Bool.and_eq_true, decide_eq_true_eq,
    Option.getD_some] at h ⊢
  exact ⟨by omega, h.2⟩

theorem countersOkB_decRetweet (x : TweetWidgetPost)
    (h : countersOkB x = true) : countersOkB (decRetweet x) = true := by
  simp only [countersOkB, decRetweet, Bool.and_eq_true, decide_eq_true_eq,
    Option.getD_some] at h ⊢
  exact ⟨h.1, by omega⟩

theorem countersOkB_merge (p : TweetWidgetPost) (u : PostUpdates) (now : Int)
    (hp : countersOkB p = true)
    (hr : (match u.replyCount with | some (some r) => decide (0 ≤ r) | _ => true) = true)
    (hw : (match u.retweet with | some (some r) => decide (0 ≤ r) | _ => true) = true) :
    countersOkB { applyUpdates p u with updated := now } = true := by
  simp only [countersOkB, applyUpdates, Bool.and_eq_true, decide_eq_true_eq] at hp ⊢
  constructor
  · cases hur : u.replyCount with
    | none => simpa using hp.1
    | some v =>
      cases v with
      | none => simp
      | some r =>
        rw [hur] at hr
        simp only [decide_eq_true_eq] at hr
        simpa using hr
  · cases hur : u.retweet with
    | none => simpa using hp.2
    | some v =>
      cases v with
      | none => simp
      | some r =>
        rw [hur] at hw
        simp only [decide_eq_true_eq] at hw
        simpa using hw

theorem mem_deleteThreadStep (s : TweetStore) (acc : List TweetWidgetPost) (i : String)
    (q : TweetWidgetPost) (hq : q ∈ deleteThreadStep s acc i) :
    q ∈ acc ∨ ∃ x, x ∈ acc ∧ q = decRetweet x := by
  rw [deleteThreadStep] at hq
  split at hq
  · split at hq
    · split at hq
      · exact mem_updateLast acc _ decRetweet q hq
      · exact Or.inl hq
    · exact Or.inl hq
  · exact Or.inl hq

theorem countersOk_foldl_deleteThreadStep (s : TweetStore) :
    ∀ (tids : List String) (acc : List TweetWidgetPost),
    (∀ p ∈ acc, countersOkB p = true) →
    ∀ p ∈ tids.foldl (deleteThreadStep s) acc, countersOkB p = true := by
  intro tids
  induction tids with
  | nil => intro acc h p hp; exact h p hp
  | cons i rest ih =>
    intro acc h p hp
    rw [List.foldl_cons] at hp
    refine ih (deleteThreadStep s acc i) ?_ p hp
    intro q hq
    rcases mem_deleteThreadStep s acc i q hq with h2 | ⟨x, hx, he⟩
    · exact h q h2
    · rw [he]
      exact countersOkB_decRetweet x (h x hx)

theorem countersOk_applyOp (s : TweetStore) (op : Op)
    (h : ∀ p ∈ s.settings.posts, countersOkB p = true) (hok : opCountersOk op = true) :
    ∀ p ∈ (applyOp s op).settings.posts, countersOkB p = true := by
  cases op with
  | add post now =>
    intro q hq
    rw [applyOp] at hq
    have he : (addPost s post now).settings.posts
        = bumpIfPresent s.postsById
            (bumpIfPresent s.postsById (post :: s.settings.posts) post.threadId (incReply now))
            post.quoteId (incRetweet now) := rfl
    rw [he] at hq
    rw [opCountersOk] at hok
    have hbase : ∀ x ∈ post :: s.settings.posts, countersOkB x = true := by
      intro x hx
      rcases List.mem_cons.mp hx with h1 | h1
      · rw [h1]; exact hok
      · exact h x h1
    have hinner : ∀ x ∈ bumpIfPresent s.postsById (post :: s.settings.posts)
        post.threadId (incReply now), countersOkB x = true := by
      intro x hx
      rcases mem_bumpIfPresent _ _ _ _ x hx with h1 | ⟨y, hy, he2⟩
      · exact hbase x h1
      · rw [he2]
        exact countersOkB_incReply now y (hbase y hy)
    rcases mem_bumpIfPresent _ _ _ _ q hq with h1 | ⟨y, hy, he2⟩
    · exact hinner q h1
    · rw [he2]
      exact countersOkB_incRetweet now y (hinner y hy)
  | update postId updates now =>
    intro q hq
    rw [applyOp, updatePost] at hq
    rw [opCountersOk, Bool.and_eq_true] at hok
    cases hm : mapGet s.postsById postId with
    | none =>
      rw [hm] at hq
      exact h q hq
    | some v =>
      rw [hm] at hq
      have he : (updatePostsById (updateLast s.settings.posts postId
          (fun post => { applyUpdates post updates with updated := now }))).settings.posts
          = updateLast s.settings.posts postId
            (fun post => { applyUpdates post updates with updated := now }) := rfl
      rw [he] at hq
      rcases mem_updateLast _ _ _ q hq with h1 | ⟨x, hx, he2⟩
      · exact h q h1
      · rw [he2]
        exact countersOkB_merge x updates now (h x hx) hok.1 hok.2
  | deleteOne postId =>
    intro q hq
    rw [applyOp] at hq
    have he : (deletePost s postId).settings.posts
        = (bumpIfPresent s.postsById
            (bumpIfPresent s.postsById s.settings.posts
              ((mapGet s.postsById postId).bind TweetWidgetPost.threadId) decReply)
            ((mapGet s.postsById postId).bind TweetWidgetPost.quoteId) decRetweet).filter
              (fun p => p.id != postId) := rfl
    rw [he] at hq
    have hq2 := List.mem_of_mem_filter hq
    have hinner : ∀ x ∈ bumpIfPresent s.postsById s.settings.posts
        ((mapGet s.postsById postId).bind TweetWidgetPost.threadId) decReply,
        countersOkB x = true := by
      intro x hx
      rcases mem_bumpIfPresent _ _ _ _ x hx with h1 | ⟨y, hy, he2⟩
      · exact h x h1
      · rw [he2]
        exact countersOkB_decReply y (h y hy)
    rcases mem_bumpIfPresent _ _ _ _ q hq2 with h1 | ⟨y, hy, he2⟩
    · exact hinner q h1
    · rw [he2]
      exact countersOkB_decRetweet y (hinner y hy)
  | deleteSubtree rootId =>
    intro q hq
    rw [applyOp] at hq
    have he : (deleteThread s rootId).settings.posts
        = ((collectThreadIds s rootId).foldl (deleteThreadStep s)
            (bumpIfPresent s.postsById s.settings.posts
              ((mapGet s.postsById rootId).bind TweetWidgetPost.threadId) decReply)).filter
              (fun p => !((collectThreadIds s rootId).contains p.id)) := rfl
    rw [he] at hq
    have hq2 := List.mem_of_mem_filter hq
    have hinner : ∀ x ∈ bumpIfPresent s.postsById s.settings.posts
        ((mapGet s.postsById rootId).bind TweetWidgetPost.threadId) decReply,
        countersOkB x = true := by
      intro x hx
      rcases mem_bumpIfPresent _ _ _ _ x hx with h1 | ⟨y, hy, he2⟩
      · exact h x h1
      · rw [he2]
        exact countersOkB_decReply y (h y hy)
    exact countersOk_foldl_deleteThreadStep s _ _ hinner q hq2
  | replaceAll newSettings =>
    intro q hq
    rw [applyOp] at hq
    rw [opCountersOk, List.all_eq_true] at hok
    exact hok q hq

theorem countersOk_run :
    ∀ (ops : List Op) (s : TweetStore),
    (∀ p ∈ s.settings.posts, countersOkB p = true) →
    ops.all opCountersOk = true →
    ∀ p ∈ (run s ops).settings.posts, countersOkB p = true := by
  intro ops
  induction ops with
  | nil => intro s h _ p hp; exact h p hp
  | cons op rest ih =>
    intro s h hall p hp
    rw [List.all_cons, Bool.and_eq_true] at hall
    rw [run, List.foldl_cons] at hp
    exact ih (applyOp s op) (countersOk_applyOp s op h hall.1) hall.2 p hp

theorem run_isFresh_nodup :
    ∀ (ops : List Op) (s : TweetStore), IsFresh s → idsNodupB s.settings.posts = true →
    seqOk s ops = true →
    IsFresh (run s ops) ∧ idsNodupB (run s ops).settings.posts = true := by
  intro ops
  induction ops with
  | nil => intro s hf hn _; exact ⟨hf, hn⟩
  | cons op rest ih =>
    intro s hf hn hseq
    rw [seqOk, Bool.and_eq_true] at hseq
    rw [run, List.foldl_cons]
    exact ih (applyOp s op) (isFresh_applyOp s op hf) (nodup_applyOp s op hn hseq.1) hseq.2

/-! ### Remaining shared helper lemmas -/

theorem find?_id_of_mem_nodup (l : List TweetWidgetPost) (p : TweetWidgetPost)
    (hnd : (postIds l).Nodup) (hp : p ∈ l) :
    l.find? (fun q => q.id == p.id) = some p := by
  induction l with
  | nil => cases hp
  | cons x rest ih =>
    rw [postIds, List.map_cons, List.nodup_cons] at hnd
    rcases List.mem_cons.mp hp with h1 | h1
    · subst h1
      exact List.find?_cons_of_pos _ (by simp)
    · have hne : x.id ≠ p.id := by
        intro he
        exact hnd.1 (he ▸ List.mem_map_of_mem TweetWidgetPost.id h1)
      rw [List.find?_cons_of_neg _ (by simpa using hne)]
      exact ih hnd.2 h1

theorem find?_filter_keep (l : List TweetWidgetPost) (pr q : TweetWidgetPost → Bool)
    (h : ∀ x, q x = true → pr x = true) :
    (l.filter pr).find? q = l.find? q := by
  induction l with
  | nil => rfl
  | cons x rest ih =>
    rw [List.filter_cons]
    by_cases hq : q x = true
    · rw [if_pos (h x hq), List.find?_cons_of_pos _ hq, List.find?_cons_of_pos _ hq]
    · have hq' : ¬ q x := by simpa using hq
      rw [List.find?_cons_of_neg _ hq']
      by_cases hp : pr x = true
      · rw [if_pos hp, List.find?_cons_of_neg _ hq']
        exact ih
      · rw [if_neg hp]
        exact ih

theorem filter_ne_updateLast (l : List TweetWidgetPost) (i : String)
    (f : TweetWidgetPost → TweetWidgetPost) (hf : ∀ x, (f x).id = x.id) :
    (updateLast l i f).filter (fun p => !(p.id == i)) = l.filter (fun p => !(p.id == i)) := by
  induction l with
  | nil => rfl
  | cons p rest ih =>
    rw [updateLast]
    split
    · rw [List.filter_cons, List.filter_cons, ih]
    · split
      · rename_i hpi
        have h1 : (!((f p).id == i)) = false := by
          rw [hf]
          simpa using hpi
        have h2 : (!(p.id == i)) = false := by simpa using hpi
        rw [List.filter_cons, List.filter_cons, h1, h2]
        simp
      · rfl

theorem filter_id_updateLast_ne (l : List TweetWidgetPost) (i : String)
    (f : TweetWidgetPost → TweetWidgetPost) (k : String)
    (hf : ∀ x, (f x).id = x.id) (hk : i ≠ k) :
    (updateLast l i f).filter (fun q => q.id == k) = l.filter (fun q => q.id == k) := by
  induction l with
  | nil => rfl
  | cons p rest ih =>
    rw [updateLast]
    split
    · rw [List.filter_cons, List.filter_cons, ih]
    · split
      · rename_i hpi
        have hpi' : p.id = i := by simpa using hpi
        have h1 : ((f p).id == k) = false := by
          rw [hf, hpi']
          simpa using hk
        have h2 : (p.id == k) = false := by
          rw [hpi']
          simpa using hk
        rw [List.filter_cons, List.filter_cons, h1, h2]
        simp
      · rfl

theorem filter_id_bumpIfPresent_ne (byId : List (String × TweetWidgetPost))
    (l : List TweetWidgetPost) (o : Option String) (f : TweetWidgetPost → TweetWidgetPost)
    (k : String) (hf : ∀ x, (f x).id = x.id) (ho : o ≠ some k) :
    (bumpIfPresent byId l o f).filter (fun q => q.id == k)
      = l.filter (fun q => q.id == k) := by
  cases o with
  | none => rw [bumpIfPresent_none]
  | some i =>
    rw [bumpIfPresent_some]
    cases hm : mapGet byId i with
    | none => rfl
    | some v =>
      exact filter_id_updateLast_ne l i f k hf (fun he => ho (by rw [he]))

theorem post_eq_of_fields (q p : TweetWidgetPost)
    (h1 : q.id = p.id) (h2 : q.threadId = p.threadId) (h3 : q.quoteId = p.quoteId)
    (h4 : q.replyCount = p.replyCount) (h5 : q.updated = p.updated) (h6 : q.text = p.text) :
    q = { p with retweet := q.retweet } := by
  cases q
  cases p
  simp_all

theorem length_le_of_nodup_subset (l u : List String) (root : String)
    (hnd : l.Nodup) (hsub : ∀ x ∈ l, x ∈ root :: u) :
    l.length ≤ u.dedup.length + 1 := by
  have h1 : l.toFinset.card = l.length := List.toFinset_card_of_nodup hnd
  have h2 : l.toFinset ⊆ (root :: u).toFinset := by
    intro x hx
    rw [List.mem_toFinset] at hx ⊢
    exact hsub x hx
  have h3 : l.toFinset.card ≤ (root :: u).toFinset.card := Finset.card_le_card h2
  have h4 : (root :: u).toFinset.card = (root :: u).dedup.length := List.card_toFinset _
  have h5 : (root :: u).dedup.length ≤ u.dedup.length + 1 := by
    by_cases hmem : root ∈ u
    · rw [List.dedup_cons_of_mem hmem]
      omega
    · rw [List.dedup_cons_of_not_mem hmem]
      rw [List.length_cons]
  omega

theorem postsById_of_fresh (s : TweetStore) (hf : IsFresh s) :
    s.postsById = mapById s.settings.posts :=
  congrArg TweetStore.postsById hf

theorem childrenByThreadId_of_fresh (s : TweetStore) (hf : IsFresh s) :
    s.childrenByThreadId = (updateChildrenMap s.settings.posts).1 :=
  congrArg TweetStore.childrenByThreadId hf

theorem quotesById_of_fresh (s : TweetStore) (hf : IsFresh s) :
    s.quotesById = (updateChildrenMap s.settings.posts).2 :=
  congrArg TweetStore.quotesById hf

theorem mapGet_postsById_of_mem (s : TweetStore) (hf : IsFresh s)
    (hn : (postIds s.settings.posts).Nodup) (p : TweetWidgetPost)
    (hp : p ∈ s.settings.posts) : mapGet s.postsById p.id = some p := by
  rw [postsById_of_fresh s hf]
  exact mapGet_mapById_of_nodup _ p hn hp

theorem collect_nodup (s : TweetStore) (rootId : String) :
    (collectThreadIds s rootId).Nodup :=
  bfs_nodup s.childrenByThreadId [rootId] [rootId] (List.nodup_singleton _)

theorem collect_sound (s : TweetStore) (rootId : String) :
    ∀ i ∈ collectThreadIds s rootId, ReachesVia s.childrenByThreadId rootId i := by
  intro i hi
  refine bfs_sound s.childrenByThreadId (ReachesVia s.childrenByThreadId rootId)
    (fun x y hx hy => ReachesVia.step hx hy) [rootId] [rootId] ?_ ?_ i hi
  · intro q hq
    rw [List.mem_singleton.mp hq]
    exact ReachesVia.refl rootId
  · intro x hx
    rw [List.mem_singleton.mp hx]
    exact ReachesVia.refl rootId

theorem collect_complete (s : TweetStore) (rootId : String) :
    ∀ i, ReachesVia s.childrenByThreadId rootId i → i ∈ collectThreadIds s rootId := by
  refine reach_mem_of_closed s.childrenByThreadId (collectThreadIds s rootId) rootId ?_ ?_
  · exact bfs_mono s.childrenByThreadId [rootId] [rootId] rootId (List.mem_singleton.mpr rfl)
  · intro x hx c hc
    refine bfs_closed s.childrenByThreadId [rootId] [rootId] ?_ x hx c hc
    intro z hz
    exact Or.inl hz

/-! ### The claims -/

/-- C5: collectThreadIds(rootId) returns exactly the set containing rootId
together with all ids transitively reachable from rootId along the child
edges of the childrenByThreadId index, each id exactly once; for a root
with no children it returns just [rootId].  Proved for every store state,
which subsumes the claim restricted to stores whose reply relation is a
forest. -/
theorem c5_collectThreadIds_exact :
    ∀ (s : TweetStore) (rootId : String),
    (collectThreadIds s rootId).Nodup
    ∧ (∀ i, i ∈ collectThreadIds s rootId ↔ ReachesVia s.childrenByThreadId rootId i)
    ∧ (getReplies s rootId = [] → collectThreadIds s rootId = [rootId]) := by
  intro s rootId
  refine ⟨collect_nodup s rootId,
    fun i => ⟨collect_sound s rootId i, collect_complete s rootId i⟩, ?_⟩
  intro h
  rw [getReplies] at h
  rw [collectThreadIds, bfs, h]
  show bfs s.childrenByThreadId [] [rootId] = [rootId]
  rw [bfs]

/-- Witness for C5 at a concrete store. -/
theorem c5_witness :
    (collectThreadIds store10 "a").Nodup
    ∧ (∀ i, i ∈ collectThreadIds store10 "a" ↔ ReachesVia store10.childrenByThreadId "a" i)
    ∧ (getReplies store10 "a" = [] → collectThreadIds store10 "a" = ["a"]) :=
  c5_collectThreadIds_exact store10 "a"

/-- C6: collectThreadIds terminates on every store state, cyclic reply data
included.  In this embedding the loop is a total function (its recursion is
justified exactly by the visited-set argument of the claim, see the
termination measure of bfs); the visited-set check makes each id occur at
most once in the result (Nodup) and bounds the traversal by the number of
distinct ids in the index plus one for the root. -/
theorem c6_collectThreadIds_terminates :
    ∀ (s : TweetStore) (rootId : String),
    (collectThreadIds s rootId).Nodup
    ∧ (collectThreadIds s rootId).length
        ≤ (allChildIds s.childrenByThreadId).dedup.length + 1 := by
  intro s rootId
  refine ⟨collect_nodup s rootId, ?_⟩
  refine length_le_of_nodup_subset _ _ rootId (collect_nodup s rootId) ?_
  intro x hx
  rcases bfs_subset s.childrenByThreadId [rootId] [rootId] x hx with h | h
  · rw [List.mem_singleton.mp h]
    exact List.mem_cons_self _ _
  · exact List.mem_cons_of_mem _ h

/-- Witness for C6 at a concrete store. -/
theorem c6_witness :
    (collectThreadIds store4w "a").Nodup
    ∧ (collectThreadIds store4w "a").length
        ≤ (allChildIds store4w.childrenByThreadId).dedup.length + 1 :=
  c6_collectThreadIds_terminates store4w "a"

/-- C7: on an id that no post carries, getPostById returns none (and, being
a total function, cannot throw), updatePost leaves the store exactly as it
was, and deletePost leaves the store exactly as it was (in particular the
primary collection and every counter are untouched). -/
theorem c7_missing_id_is_noop :
    ∀ (s : TweetStore) (postId : String) (u : PostUpdates) (now : Int),
    IsFresh s → (∀ p ∈ s.settings.posts, p.id ≠ postId) →
    getPostById s postId = none
    ∧ updatePost s postId u now = s
    ∧ deletePost s postId = s := by
  intro s postId u now hf hno
  have hget : mapGet s.postsById postId = none := by
    rw [postsById_of_fresh s hf]
    exact mapGet_mapById_eq_none _ _ hno
  refine ⟨hget, ?_, ?_⟩
  · simp only [updatePost, hget]
  · have he : deletePost s postId = updatePostsById
        ((bumpIfPresent s.postsById (bumpIfPresent s.postsById s.settings.posts
          ((mapGet s.postsById postId).bind TweetWidgetPost.threadId) decReply)
          ((mapGet s.postsById postId).bind TweetWidgetPost.quoteId) decRetweet).filter
          (fun p => p.id != postId)) := rfl
    rw [he, hget]
    rw [show (none : Option TweetWidgetPost).bind TweetWidgetPost.threadId = none from rfl]
    rw [show (none : Option TweetWidgetPost).bind TweetWidgetPost.quoteId = none from rfl]
    rw [bumpIfPresent_none, bumpIfPresent_none]
    have hfilter : s.settings.posts.filter (fun p => p.id != postId) = s.settings.posts := by
      rw [List.filter_eq_self]
      intro a ha
      simpa using hno a ha
    rw [hfilter]
    exact hf.symm

/-- Witness for C7 at a concrete store and missing id. -/
theorem c7_witness :
    IsFresh store2 ∧ (∀ p ∈ store2.settings.posts, p.id ≠ "zz")
    ∧ (getPostById store2 "zz" = none
        ∧ updatePost store2 "zz" {} 9 = store2
        ∧ deletePost store2 "zz" = store2) :=
  ⟨by decide, by decide, c7_missing_id_is_noop store2 "zz" {} 9 (by decide) (by decide)⟩

/-- C8: an updatePost call on an existing post rewrites only that post: the
new primary collection is the old one with exactly the target entry merged,
and the sublist of all other posts is unchanged entry for entry — in
particular no replyCount or retweet counter of an old or new parent or
quote target is adjusted, even when the updates change threadId or
quoteId. -/
theorem c8_update_frames_other_posts :
    ∀ (s : TweetStore) (postId : String) (u : PostUpdates) (now : Int)
      (r : TweetWidgetPost),
    mapGet s.postsById postId = some r →
    ((updatePost s postId u now).settings.posts
      = updateLast s.settings.posts postId
          (fun post => { applyUpdates post u with updated := now }))
    ∧ ((updatePost s postId u now).settings.posts.filter (fun p => !(p.id == postId))
        = s.settings.posts.filter (fun p => !(p.id == postId))) := by
  intro s postId u now r hr
  have he : (updatePost s postId u now).settings.posts
      = updateLast s.settings.posts postId
          (fun post => { applyUpdates post u with updated := now }) := by
    simp only [updatePost, hr]
    rfl
  refine ⟨he, ?_⟩
  rw [he]
  exact filter_ne_updateLast _ _ _ (fun x => rfl)

/-- Witness for C8: moving the reply under a different parent leaves every
other post (in particular the old parent entry with replyCount 1)
untouched. -/
theorem c8_witness :
    mapGet store2.postsById "r" = some postR2
    ∧ (((updatePost store2 "r" { threadId := some (some "q") } 9).settings.posts
        = updateLast store2.settings.posts "r"
            (fun post => { applyUpdates post { threadId := some (some "q") } with updated := 9 }))
      ∧ ((updatePost store2 "r" { threadId := some (some "q") } 9).settings.posts.filter
            (fun p => !(p.id == "r"))
          = store2.settings.posts.filter (fun p => !(p.id == "r")))) :=
  ⟨by decide,
    c8_update_frames_other_posts store2 "r" { threadId := some (some "q") } 9 postR2 (by decide)⟩

/-- C9: addPost with an id already in the store prepends the new post, and
the later-entry-wins rebuild of postsById makes getPostById return the
pre-existing (older) post, not the new one.  The two inequations on the new
post rule out a self reference, under which the returned older post would
additionally have had a counter bumped. -/
theorem c9_duplicate_add_keeps_existing :
    ∀ (s : TweetStore) (p o : TweetWidgetPost) (now : Int),
    idsNodupB s.settings.posts = true → o ∈ s.settings.posts → o.id = p.id →
    p.threadId ≠ some p.id → p.quoteId ≠ some p.id →
    getPostById (addPost s p now) p.id = some o := by
  intro s p o now hn ho hid ht hq
  have hnd : (postIds s.settings.posts).Nodup := by
    rwa [idsNodupB, decide_eq_true_iff] at hn
  have he : (addPost s p now).settings.posts
      = bumpIfPresent s.postsById
          (bumpIfPresent s.postsById (p :: s.settings.posts) p.threadId (incReply now))
          p.quoteId (incRetweet now) := rfl
  have hpb : (addPost s p now).postsById
      = mapById ((addPost s p now).settings.posts) := rfl
  rw [getPostById, hpb, mapGet_mapById, he]
  rw [filter_id_bumpIfPresent_ne _ _ _ (incRetweet now) _ (fun x => rfl) hq,
      filter_id_bumpIfPresent_ne _ _ _ (incReply now) _ (fun x => rfl) ht]
  rw [List.filter_cons, if_pos (by simp)]
  have hfo : s.settings.posts.filter (fun q => q.id == p.id) = [o] := by
    have h2 := filter_eq_single_of_nodup s.settings.posts o hnd ho
    rw [hid] at h2
    exact h2
  rw [hfo]
  rfl

/-- Witness for C9: adding a second post with id "a" leaves the original
one visible through getPostById. -/
theorem c9_witness :
    idsNodupB store9.settings.posts = true ∧ postA0 ∈ store9.settings.posts
    ∧ postA0.id = postA1.id
    ∧ postA1.threadId ≠ some postA1.id ∧ postA1.quoteId ≠ some postA1.id
    ∧ getPostById (addPost store9 postA1 0) postA1.id = some postA0 :=
  ⟨by decide, by decide, by decide, by decide, by decide,
    c9_duplicate_add_keeps_existing store9 postA1 postA0 0
      (by decide) (by decide) (by decide) (by decide) (by decide)⟩

/-- Counterexample to C1 as frozen: starting from a store whose posts have
unique ids, a later addPost may reuse an existing id; after that call the
new post is in the primary collection but postsById maps the shared id to
the older entry, so the clause "postsById.get(p.id) === p for every post p"
fails. -/
theorem c1_counterexample :
    idsNodupB store9.settings.posts = true
    ∧ postA1 ∈ (applyOp store9 (Op.add postA1 0)).settings.posts
    ∧ getPostById (applyOp store9 (Op.add postA1 0)) postA1.id ≠ some postA1 := by
  decide

/-- C1 (amended): for call sequences that keep the post ids unique — every
addPost uses a fresh id and every setAllSettings installs a collection with
unique ids, which is exactly the insert contract of the spec — after every
call the indices equal a fresh rebuild of the primary collection: postsById
maps each id to its post, and the children (resp. quote) buckets are
exactly the filters of the collection in collection order.  The statement
quantifies over all sequences, so it covers every intermediate state. -/
theorem c1_indices_equal_fresh_rebuild :
    ∀ (init : TweetWidgetSettings) (ops : List Op),
    idsNodupB init.posts = true → seqOk (mkStore init) ops = true →
    (∀ p ∈ (run (mkStore init) ops).settings.posts,
        getPostById (run (mkStore init) ops) p.id = some p)
    ∧ (∀ t, getReplies (run (mkStore init) ops) t
        = (run (mkStore init) ops).settings.posts.filter (fun p => p.threadId == some t))
    ∧ (∀ t, getQuotePosts (run (mkStore init) ops) t
        = (run (mkStore init) ops).settings.posts.filter (fun p => p.quoteId == some t)) := by
  intro init ops hn hseq
  obtain ⟨hf, hn2⟩ := run_isFresh_nodup ops (mkStore init) (isFresh_mkStore init) hn hseq
  have hndP : (postIds (run (mkStore init) ops).settings.posts).Nodup := by
    rwa [idsNodupB, decide_eq_true_iff] at hn2
  refine ⟨?_, ?_, ?_⟩
  · intro p hp
    rw [getPostById]
    exact mapGet_postsById_of_mem _ hf hndP p hp
  · intro t
    rw [getReplies, childrenByThreadId_of_fresh _ hf, updateChildrenMap_fst_get]
  · intro t
    rw [getQuotePosts, quotesById_of_fresh _ hf, updateChildrenMap_snd_get]

/-- Witness for C1 on a concrete sequence exercising add, update, deleteOne
and replaceAll. -/
theorem c1_witness :
    idsNodupB ({ posts := [] } : TweetWidgetSettings).posts = true
    ∧ seqOk (mkStore { posts := [] })
        [Op.add postP2 1, Op.add postR2 2, Op.update "p" { text := some "x" } 3,
         Op.deleteOne "r", Op.replaceAll { posts := [postA0] }] = true
    ∧ ((∀ p ∈ (run (mkStore { posts := [] })
          [Op.add postP2 1, Op.add postR2 2, Op.update "p" { text := some "x" } 3,
           Op.deleteOne "r", Op.replaceAll { posts := [postA0] }]).settings.posts,
        getPostById (run (mkStore { posts := [] })
          [Op.add postP2 1, Op.add postR2 2, Op.update "p" { text := some "x" } 3,
           Op.deleteOne "r", Op.replaceAll { posts := [postA0] }]) p.id = some p)
      ∧ (∀ t, getReplies (run (mkStore { posts := [] })
          [Op.add postP2 1, Op.add postR2 2, Op.update "p" { text := some "x" } 3,
           Op.deleteOne "r", Op.replaceAll { posts := [postA0] }]) t
          = (run (mkStore { posts := [] })
          [Op.add postP2 1, Op.add postR2 2, Op.update "p" { text := some "x" } 3,
           Op.deleteOne "r", Op.replaceAll { posts := [postA0] }]).settings.posts.filter
            (fun p => p.threadId == some t))
      ∧ (∀ t, getQuotePosts (run (mkStore { posts := [] })
          [Op.add postP2 1, Op.add postR2 2, Op.update "p" { text := some "x" } 3,
           Op.deleteOne "r", Op.replaceAll { posts := [postA0] }]) t
          = (run (mkStore { posts := [] })
          [Op.add postP2 1, Op.add postR2 2, Op.update "p" { text := some "x" } 3,
           Op.deleteOne "r", Op.replaceAll { posts := [postA0] }]).settings.posts.filter
            (fun p => p.quoteId == some t))) :=
  ⟨by decide, by decide,
    c1_indices_equal_fresh_rebuild { posts := [] }
      [Op.add postP2 1, Op.add postR2 2, Op.update "p" { text := some "x" } 3,
       Op.deleteOne "r", Op.replaceAll { posts := [postA0] }] (by decide) (by decide)⟩

/-- Counterexample to C2 as frozen: deletePost modifies the parent counter
without refreshing the parent timestamp.  Deleting the reply drops the
parent replyCount from 1 to 0, yet the parent updated stamp stays at its
old value 5 — deletePost does not even take a clock reading. -/
theorem c2_counterexample :
    getPostById store2 "p" = some postP2
    ∧ postP2.replyCount = some 1 ∧ postP2.updated = 5
    ∧ getPostById (deletePost store2 "r") "p" = some { postP2 with replyCount := some 0 } := by
  decide

/-- Helper fact shared by the C2 proof: every post surviving the
deleteThread counter loop differs from some pre-loop post only in its
retweet field. -/
theorem frame_foldl_deleteThreadStep (s : TweetStore) :
    ∀ (tids : List String) (acc : List TweetWidgetPost),
    ∀ q ∈ tids.foldl (deleteThreadStep s) acc,
      ∃ x ∈ acc, q = { x with retweet := q.retweet } := by
  intro tids
  induction tids with
  | nil =>
    intro acc q hq
    exact ⟨q, hq, rfl⟩
  | cons i rest ih =>
    intro acc q hq
    rw [List.foldl_cons] at hq
    rcases ih (deleteThreadStep s acc i) q hq with ⟨x, hx, he⟩
    rcases mem_deleteThreadStep s acc i x hx with h1 | ⟨y, hy, he2⟩
    · exact ⟨x, h1, he⟩
    · refine ⟨y, hy, ?_⟩
      rw [he, he2]
      rfl

/-- C2 (amended): addPost stamps `updated = now` on every post it modifies
(the resolved parent and quote target), and updatePost stamps the post it
rewrites; but deletePost and deleteThread adjust replyCount and retweet
counters without refreshing any timestamp: every post they leave behind
agrees with a pre-call post on every field except the two counters — in
particular on `updated`. -/
theorem c2_updated_stamping :
    (∀ (s : TweetStore) (post : TweetWidgetPost) (now : Int),
      ∀ q ∈ (addPost s post now).settings.posts,
        q = post ∨ q ∈ s.settings.posts ∨ q.updated = now)
    ∧ (∀ (s : TweetStore) (postId : String) (u : PostUpdates) (now : Int),
      ∀ q ∈ (updatePost s postId u now).settings.posts,
        q ∈ s.settings.posts ∨ q.updated = now)
    ∧ (∀ (s : TweetStore) (postId : String),
      ∀ q ∈ (deletePost s postId).settings.posts,
        ∃ x ∈ s.settings.posts,
          q = { x with replyCount := q.replyCount, retweet := q.retweet })
    ∧ (∀ (s : TweetStore) (rootId : String),
      ∀ q ∈ (deleteThread s rootId).settings.posts,
        ∃ x ∈ s.settings.posts,
          q = { x with replyCount := q.replyCount, retweet := q.retweet }) := by
  refine ⟨?_, ?_, ?_, ?_⟩
  · intro s post now q hq
    have he : (addPost s post now).settings.posts
        = bumpIfPresent s.postsById
            (bumpIfPresent s.postsById (post :: s.settings.posts) post.threadId (incReply now))
            post.quoteId (incRetweet now) := rfl
    rw [he] at hq
    rcases mem_bumpIfPresent _ _ _ _ q hq with h1 | ⟨y, _, he2⟩
    · rcases mem_bumpIfPresent _ _ _ _ q h1 with h2 | ⟨z, _, he3⟩
      · rcases List.mem_cons.mp h2 with h3 | h3
        · exact Or.inl h3
        · exact Or.inr (Or.inl h3)
      · exact Or.inr (Or.inr (by rw [he3]; rfl))
    · exact Or.inr (Or.inr (by rw [he2]; rfl))
  · intro s postId u now q hq
    rw [updatePost] at hq
    cases hm : mapGet s.postsById postId with
    | none =>
      rw [hm] at hq
      exact Or.inl hq
    | some v =>
      rw [hm] at hq
      have he : (updatePostsById (updateLast s.settings.posts postId
          (fun post => { applyUpdates post u with updated := now }))).settings.posts
          = updateLast s.settings.posts postId
            (fun post => { applyUpdates post u with updated := now }) := rfl
      rw [he] at hq
      rcases mem_updateLast _ _ _ q hq with h1 | ⟨x, _, he2⟩
      · exact Or.inl h1
      · exact Or.inr (by rw [he2])
  · intro s postId q hq
    have he : (deletePost s postId).settings.posts
        = (bumpIfPresent s.postsById
            (bumpIfPresent s.postsById s.settings.posts
              ((mapGet s.postsById postId).bind TweetWidgetPost.threadId) decReply)
            ((mapGet s.postsById postId).bind TweetWidgetPost.quoteId) decRetweet).filter
              (fun p => p.id != postId) := rfl
    rw [he] at hq
    have hq2 := List.mem_of_mem_filter hq
    rcases mem_bumpIfPresent _ _ _ _ q hq2 with h1 | ⟨y, hy, he2⟩
    · rcases mem_bumpIfPresent _ _ _ _ q h1 with h2 | ⟨z, hz, he3⟩
      · exact ⟨q, h2, rfl⟩
      · exact ⟨z, hz, by rw [he3]; rfl⟩
    · rcases mem_bumpIfPresent _ _ _ _ y hy with h2 | ⟨z, hz, he3⟩
      · exact ⟨y, h2, by rw [he2]; rfl⟩
      · exact ⟨z, hz, by rw [he2, he3]; rfl⟩
  · intro s rootId q hq
    have he : (deleteThread s rootId).settings.posts
        = ((collectThreadIds s rootId).foldl (deleteThreadStep s)
            (bumpIfPresent s.postsById s.settings.posts
              ((mapGet s.postsById rootId).bind TweetWidgetPost.threadId) decReply)).filter
              (fun p => !((collectThreadIds s rootId).contains p.id)) := rfl
    rw [he] at hq
    have hq2 := List.mem_of_mem_filter hq
    rcases frame_foldl_deleteThreadStep s _ _ q hq2 with ⟨x, hx, he2⟩
    rcases mem_bumpIfPresent _ _ _ _ x hx with h1 | ⟨y, hy, he3⟩
    · exact ⟨x, h1, by rw [he2]⟩
    · exact ⟨y, hy, by rw [he2, he3]; rfl⟩

/-- Witness for C2 at concrete calls. -/
theorem c2_witness :
    (∀ q ∈ (addPost store2 postA0 7).settings.posts,
        q = postA0 ∨ q ∈ store2.settings.posts ∨ q.updated = 7)
    ∧ (∀ q ∈ (updatePost store2 "p" { text := some "y" } 8).settings.posts,
        q ∈ store2.settings.posts ∨ q.updated = 8)
    ∧ (∀ q ∈ (deletePost store2 "r").settings.posts,
        ∃ x ∈ store2.settings.posts,
          q = { x with replyCount := q.replyCount, retweet := q.retweet }) :=
  ⟨c2_updated_stamping.1 store2 postA0 7,
   c2_updated_stamping.2.1 store2 "p" { text := some "y" } 8,
   c2_updated_stamping.2.2.1 store2 "r"⟩

/-- Counterexample to C3 as frozen: the claim only constrains the initial
state, but addPost inserts the post handed to it verbatim, so a caller can
introduce a negative counter into a store whose initial state (here: empty)
satisfies the hypothesis. -/
theorem c3_counterexample :
    (∀ p ∈ (mkStore { posts := [] }).settings.posts, countersOkB p = true)
    ∧ getPostById (addPost (mkStore { posts := [] }) postNeg 0) "n" = some postNeg
    ∧ postNeg.replyCount.getD 0 < 0 := by
  decide

/-- C3 (amended): if every post of the initial state and every counter
value fed in by the calls themselves (posts handed to addPost or installed
by setAllSettings, and replyCount/retweet values assigned by updatePost)
is absent or nonnegative, then after any sequence of store calls every
post keeps replyCount and retweet absent or nonnegative: increments start
from a nonnegative value and decrements are floored at 0 by Math.max, in
whatever order deletions happen. -/
theorem c3_counters_stay_nonneg :
    ∀ (init : TweetWidgetSettings) (ops : List Op),
    (∀ p ∈ init.posts, countersOkB p = true) → ops.all opCountersOk = true →
    ∀ p ∈ (run (mkStore init) ops).settings.posts,
      0 ≤ p.replyCount.getD 0 ∧ 0 ≤ p.retweet.getD 0 := by
  intro init ops h hall p hp
  have h2 := countersOk_run ops (mkStore init) h hall p hp
  rwa [countersOkB, Bool.and_eq_true, decide_eq_true_eq, decide_eq_true_eq] at h2

/-- Witness for C3 on a concrete sequence with adds, an update and both
kinds of delete. -/
theorem c3_witness :
    (∀ p ∈ ({ posts := [postA0] } : TweetWidgetSettings).posts, countersOkB p = true)
    ∧ ([Op.add postP2 1, Op.add postR2 2, Op.update "p" { retweet := some (some 4) } 3,
        Op.deleteOne "r", Op.deleteSubtree "p"].all opCountersOk = true)
    ∧ (∀ p ∈ (run (mkStore { posts := [postA0] })
        [Op.add postP2 1, Op.add postR2 2, Op.update "p" { retweet := some (some 4) } 3,
         Op.deleteOne "r", Op.deleteSubtree "p"]).settings.posts,
        0 ≤ p.replyCount.getD 0 ∧ 0 ≤ p.retweet.getD 0) :=
  ⟨by decide, by decide,
    c3_counters_stay_nonneg { posts := [postA0] }
      [Op.add postP2 1, Op.add postR2 2, Op.update "p" { retweet := some (some 4) } 3,
       Op.deleteOne "r", Op.deleteSubtree "p"] (by decide) (by decide)⟩

/-- C10: deleteThread on an id that no post carries still removes every
post transitively reachable from that id along the reply-adjacency index
(collectThreadIds seeds the traversal without checking that the root
exists), and since the root lookup fails, the grandparent branch is
skipped: every surviving post keeps all fields except possibly retweet —
in particular no replyCount is decremented. -/
theorem c10_deleteThread_on_missing_root :
    ∀ (s : TweetStore) (rootId : String),
    IsFresh s → idsNodupB s.settings.posts = true →
    mapGet s.postsById rootId = none →
    (∀ q ∈ (deleteThread s rootId).settings.posts,
        ¬ ReachesVia s.childrenByThreadId rootId q.id)
    ∧ (∀ p ∈ s.settings.posts, ¬ ReachesVia s.childrenByThreadId rootId p.id →
        ∃ q ∈ (deleteThread s rootId).settings.posts,
          q.id = p.id ∧ q = { p with retweet := q.retweet }) := by
  intro s rootId hf hn hroot
  have hndP : (postIds s.settings.posts).Nodup := by
    rwa [idsNodupB, decide_eq_true_iff] at hn
  have he : (deleteThread s rootId).settings.posts
      = ((collectThreadIds s rootId).foldl (deleteThreadStep s)
          (bumpIfPresent s.postsById s.settings.posts
            ((mapGet s.postsById rootId).bind TweetWidgetPost.threadId) decReply)).filter
          (fun p => !((collectThreadIds s rootId).contains p.id)) := rfl
  have hposts1 : bumpIfPresent s.postsById s.settings.posts
      ((mapGet s.postsById rootId).bind TweetWidgetPost.threadId) decReply
      = s.settings.posts := by
    rw [hroot]
    rw [show (none : Option TweetWidgetPost).bind TweetWidgetPost.threadId = none from rfl]
    rw [bumpIfPresent_none]
  constructor
  · intro q hq hreach
    rw [he] at hq
    have hmem := List.mem_filter.mp hq
    have hout : q.id ∉ collectThreadIds s rootId := by simpa using hmem.2
    exact hout (collect_complete s rootId q.id hreach)
  · intro p hp hreach
    have hout : p.id ∉ collectThreadIds s rootId :=
      fun hmem => hreach (collect_sound s rootId p.id hmem)
    have hpmap : mapGet s.postsById p.id = some p :=
      mapGet_postsById_of_mem s hf hndP p hp
    have hfind0 : s.settings.posts.find? (fun q => q.id == p.id) = some p :=
      find?_id_of_mem_nodup _ p hndP hp
    have hfind1 := find?_foldl_deleteThreadStep s p.id (by rw [hpmap]; rfl)
      (collectThreadIds s rootId) s.settings.posts hndP
    rw [hfind0] at hfind1
    have hkeep : ∀ x : TweetWidgetPost, (x.id == p.id) = true →
        (!((collectThreadIds s rootId).contains x.id)) = true := by
      intro x hx
      have hxe : x.id = p.id := by simpa using hx
      rw [hxe]
      simpa using hout
    have hfind2 : ((deleteThread s rootId).settings.posts).find? (fun q => q.id == p.id)
        = some (decRetweet^[countQuoters s (collectThreadIds s rootId) p.id] p) := by
      rw [he, hposts1, find?_filter_keep _ _ _ hkeep, hfind1]
      rfl
    obtain ⟨h1, h2, h3, h4, h5, h6⟩ :=
      decRetweet_iterate_id p (countQuoters s (collectThreadIds s rootId) p.id)
    exact ⟨decRetweet^[countQuoters s (collectThreadIds s rootId) p.id] p,
      List.mem_of_find?_eq_some hfind2, h1,
      post_eq_of_fields _ p h1 h2 h3 h4 h5 h6⟩

/-- Witness for C10: in a store with a dangling reply chain b → a, c → b
under the missing root "a", the call deletes b and c (leaving nothing), as
the theorem instance and the concrete final collection show. -/
theorem c10_witness :
    IsFresh store10 ∧ idsNodupB store10.settings.posts = true
    ∧ mapGet store10.postsById "a" = none
    ∧ ((∀ q ∈ (deleteThread store10 "a").settings.posts,
          ¬ ReachesVia store10.childrenByThreadId "a" q.id)
      ∧ (∀ p ∈ store10.settings.posts, ¬ ReachesVia store10.childrenByThreadId "a" p.id →
          ∃ q ∈ (deleteThread store10 "a").settings.posts,
            q.id = p.id ∧ q = { p with retweet := q.retweet }))
    ∧ (deleteThread store10 "a").settings.posts = [] := by
  refine ⟨by decide, by decide, by decide,
    c10_deleteThread_on_missing_root store10 "a" (by decide) (by decide) (by decide), ?_⟩
  have h : collectThreadIds store10 "a" = ["a", "b", "c"] := by
    simp [collectThreadIds, bfs, enqueueChildren, store10, mkStore, updatePostsById,
      updateChildrenMap, childrenMapStep, mapGet, mapSet, postDB, postDC]
  rw [deleteThread, h]
  decide

/-- Counterexample to C4 as frozen: the grandparent decrement is floored at
0, so it is not always a decrease "by exactly 1".  In a store where the
parent replyCount was never set (counter drift: the reply was attached
without an insert-time increment), deleting the reply thread leaves the
parent at replyCount 0 — not at the value one below its previous effective
count of 0 that an exact decrease would demand. -/
theorem c4_counterexample :
    getPostById store4 "p" = some postP4 ∧ postP4.replyCount = none
    ∧ getPostById (deleteThread store4 "r") "p" = some { postP4 with replyCount := some 0 }
    ∧ ¬ ((some (0 : Int) : Option Int) = some (postP4.replyCount.getD 0 - 1)) := by
  refine ⟨by decide, by decide, ?_, by decide⟩
  have h : collectThreadIds store4 "r" = ["r"] := by
    simp [collectThreadIds, bfs, enqueueChildren, store4, mkStore, updatePostsById,
      updateChildrenMap, childrenMapStep, mapGet, mapSet, postR4, postP4]
  rw [deleteThread, h]
  decide

/-- C4 (amended): after deleteThread(rootId) on a store whose root post
resolves, every surviving post T keeps threadId, quoteId, text and updated
unchanged, its replyCount becomes max(0, old − 1) exactly when the root
post had threadId = T.id (hence a decrease by exactly 1 whenever the old
count was at least 1, and never a decrease by the number of deleted posts)
and is untouched otherwise, and its retweet becomes max(0, old − k) where
k is the number of deleted posts quoting T (a decrease by exactly k
whenever the old count was at least k) and is untouched when k = 0.  Only
the per-decrement floor at 0 separates this from the frozen claim. -/
theorem c4_deleteThread_counter_changes :
    ∀ (s : TweetStore) (rootId : String) (rootPost : TweetWidgetPost),
    IsFresh s → idsNodupB s.settings.posts = true →
    mapGet s.postsById rootId = some rootPost →
    ∀ T ∈ s.settings.posts, T.id ∉ collectThreadIds s rootId →
    ∃ R ∈ (deleteThread s rootId).settings.posts,
      R.id = T.id ∧ R.threadId = T.threadId ∧ R.quoteId = T.quoteId
      ∧ R.text = T.text ∧ R.updated = T.updated
      ∧ R.replyCount = (if rootPost.threadId = some T.id
          then some (max 0 (T.replyCount.getD 0 - 1)) else T.replyCount)
      ∧ R.retweet = (if countQuoters s (collectThreadIds s rootId) T.id = 0
          then T.retweet
          else some (max 0 (T.retweet.getD 0
              - (countQuoters s (collectThreadIds s rootId) T.id : Int)))) := by
  intro s rootId rootPost hf hn hroot T hT hout
  have hndP : (postIds s.settings.posts).Nodup := by
    rwa [idsNodupB, decide_eq_true_iff] at hn
  have hTmap : mapGet s.postsById T.id = some T := mapGet_postsById_of_mem s hf hndP T hT
  have hfind0 : s.settings.posts.find? (fun q => q.id == T.id) = some T :=
    find?_id_of_mem_nodup _ T hndP hT
  have hfind1 : (bumpIfPresent s.postsById s.settings.posts
      ((mapGet s.postsById rootId).bind TweetWidgetPost.threadId) decReply).find?
        (fun q => q.id == T.id)
      = some (if rootPost.threadId = some T.id then decReply T else T) := by
    rw [hroot]
    rw [show (some rootPost).bind TweetWidgetPost.threadId = rootPost.threadId from rfl]
    rw [find?_id_bumpIfPresent _ _ _ decReply T.id hndP (fun x => rfl)]
    by_cases hrt : rootPost.threadId = some T.id
    · rw [if_pos ⟨hrt, by rw [hTmap]; rfl⟩, hfind0, if_pos hrt]
      rfl
    · rw [if_neg (by rintro ⟨hh, _⟩; exact hrt hh), hfind0, if_neg hrt]
  have hnd1 : (postIds (bumpIfPresent s.postsById s.settings.posts
      ((mapGet s.postsById rootId).bind TweetWidgetPost.threadId) decReply)).Nodup := by
    rw [postIds_bumpIfPresent _ _ _ decReply (fun x => rfl)]
    exact hndP
  have hfind2 := find?_foldl_deleteThreadStep s T.id (by rw [hTmap]; rfl)
    (collectThreadIds s rootId)
    (bumpIfPresent s.postsById s.settings.posts
      ((mapGet s.postsById rootId).bind TweetWidgetPost.threadId) decReply) hnd1
  rw [hfind1] at hfind2
  have hkeep : ∀ x : TweetWidgetPost, (x.id == T.id) = true →
      (!((collectThreadIds s rootId).contains x.id)) = true := by
    intro x hx
    have hxe : x.id = T.id := by simpa using hx
    rw [hxe]
    simpa using hout
  have he : (deleteThread s rootId).settings.posts
      = ((collectThreadIds s rootId).foldl (deleteThreadStep s)
          (bumpIfPresent s.postsById s.settings.posts
            ((mapGet s.postsById rootId).bind TweetWidgetPost.threadId) decReply)).filter
          (fun p => !((collectThreadIds s rootId).contains p.id)) := rfl
  have hfind3 : ((deleteThread s rootId).settings.posts).find? (fun q => q.id == T.id)
      = some (decRetweet^[countQuoters s (collectThreadIds s rootId) T.id]
          (if rootPost.threadId = some T.id then decReply T else T)) := by
    rw [he, find?_filter_keep _ _ _ hkeep, hfind2]
    rfl
  obtain ⟨h1, h2, h3, h4, h5, h6⟩ := decRetweet_iterate_id
    (if rootPost.threadId = some T.id then decReply T else T)
    (countQuoters s (collectThreadIds s rootId) T.id)
  have hXid : (if rootPost.threadId = some T.id then decReply T else T).id = T.id := by
    by_cases hrt : rootPost.threadId = some T.id <;> simp [hrt, decReply]
  have hXth : (if rootPost.threadId = some T.id then decReply T else T).threadId = T.threadId := by
    by_cases hrt : rootPost.threadId = some T.id <;> simp [hrt, decReply]
  have hXq : (if rootPost.threadId = some T.id then decReply T else T).quoteId = T.quoteId := by
    by_cases hrt : rootPost.threadId = some T.id <;> simp [hrt, decReply]
  have hXtext : (if rootPost.threadId = some T.id then decReply T else T).text = T.text := by
    by_cases hrt : rootPost.threadId = some T.id <;> simp [hrt, decReply]
  have hXupd : (if rootPost.threadId = some T.id then decReply T else T).updated = T.updated := by
    by_cases hrt : rootPost.threadId = some T.id <;> simp [hrt, decReply]
  have hXrc : (if rootPost.threadId = some T.id then decReply T else T).replyCount
      = (if rootPost.threadId = some T.id
          then some (max 0 (T.replyCount.getD 0 - 1)) else T.replyCount) := by
    by_cases hrt : rootPost.threadId = some T.id <;> simp [hrt, decReply]
  have hXrw : (if rootPost.threadId = some T.id then decReply T else T).retweet = T.retweet := by
    by_cases hrt : rootPost.threadId = some T.id <;> simp [hrt, decReply]
  refine ⟨_, List.mem_of_find?_eq_some hfind3, h1.trans hXid, h2.trans hXth,
    h3.trans hXq, h6.trans hXtext, h5.trans hXupd, h4.trans hXrc, ?_⟩
  by_cases hk : countQuoters s (collectThreadIds s rootId) T.id = 0
  · rw [hk, if_pos rfl]
    simp only [Function.iterate_zero_apply]
    exact hXrw
  · rw [if_neg hk, decRetweet_iterate_retweet _ _ hk, hXrw]

/-- Witness for C4: deleting the thread rooted at "a" (posts a and b, both
quoting t, with a replying to z) leaves the grandparent z with
replyCount max(0, 1 − 1) = 0 — a decrease by exactly 1 — and leaves the
target t with retweet max(0, 2 − 2) = 0 — a decrease by exactly the number
of deleted quoters. -/
theorem c4_witness :
    IsFresh store4w ∧ idsNodupB store4w.settings.posts = true
    ∧ mapGet store4w.postsById "a" = some postA4
    ∧ postZ ∈ store4w.settings.posts ∧ postZ.id ∉ collectThreadIds store4w "a"
    ∧ postT ∈ store4w.settings.posts ∧ postT.id ∉ collectThreadIds store4w "a"
    ∧ (∃ R ∈ (deleteThread store4w "a").settings.posts,
        R.id = postZ.id ∧ R.threadId = postZ.threadId ∧ R.quoteId = postZ.quoteId
        ∧ R.text = postZ.text ∧ R.updated = postZ.updated
        ∧ R.replyCount = (if postA4.threadId = some postZ.id
            then some (max 0 (postZ.replyCount.getD 0 - 1)) else postZ.replyCount)
        ∧ R.retweet = (if countQuoters store4w (collectThreadIds store4w "a") postZ.id = 0
            then postZ.retweet
            else some (max 0 (postZ.retweet.getD 0
                - (countQuoters store4w (collectThreadIds store4w "a") postZ.id : Int)))))
    ∧ (∃ R ∈ (deleteThread store4w "a").settings.posts,
        R.id = postT.id ∧ R.threadId = postT.threadId ∧ R.quoteId = postT.quoteId
        ∧ R.text = postT.text ∧ R.updated = postT.updated
        ∧ R.replyCount = (if postA4.threadId = some postT.id
            then some (max 0 (postT.replyCount.getD 0 - 1)) else postT.replyCount)
        ∧ R.retweet = (if countQuoters store4w (collectThreadIds store4w "a") postT.id = 0
            then postT.retweet
            else some (max 0 (postT.retweet.getD 0
                - (countQuoters store4w (collectThreadIds store4w "a") postT.id : Int))))) := by
  have hcol : collectThreadIds store4w "a" = ["a", "b"] := by
    simp [collectThreadIds, bfs, enqueueChildren, store4w, mkStore, updatePostsById,
      updateChildrenMap, childrenMapStep, mapGet, mapSet, postB4, postA4, postT, postZ]
  refine ⟨by decide, by decide, by decide, by decide, ?_, by decide, ?_, ?_, ?_⟩
  · rw [hcol]; decide
  · rw [hcol]; decide
  · exact c4_deleteThread_counter_changes store4w "a" postA4 (by decide) (by decide)
      (by decide) postZ (by decide) (by rw [hcol]; decide)
  · exact c4_deleteThread_counter_changes store4w "a" postA4 (by decide) (by decide)
      (by decide) postT (by decide) (by rw [hcol]; decide)
